import Mathlib

/-!
# Verification of the `simple_fsm` hierarchical finite-state-machine engine

Shallow embedding of the Go package `simple_fsm` (github.com/xenzh/gofsm).

Modelling conventions:

* Go pointers to `StateInfo` nodes are modelled as natural-number identities
  (`StateId`); the program heap is a total function `StateId → StateNode α`.
  Pointer equality in the source becomes equality of identities.
* `interface{}` values stored in contexts are opaque: the whole development is
  parametric in a value type `α`.
* Go maps with `string` keys are modelled as association lists (`List.lookup`);
  for `Context` members a functional map `String → Option α` is used
  (`members[key] = value` becomes a functional update).
* The Go slice backing `ContextStack` keeps its head at the *end*; here the
  stack is a Lean list whose *first* element is the head.  All operations are
  translated accordingly (push = cons, `Global` = last element).
* Loops that walk `Parent` pointers (`make_path`, `checkHierarchyCycled`) and
  the recursive `satisfyDependencies` may diverge on cyclic pointer structures
  in Go; they take an explicit fuel argument, with `none` meaning "the call
  does not return within the given fuel".  Theorems that need termination
  state fuel-sufficiency hypotheses.
* Functions whose Go counterpart dereferences a possibly-nil pointer return
  `Option`: a `none` result models a nil-pointer panic.
* `FsmError` keeps the source's `kind` plus a `description` string.  Where the
  Go constructor embeds an `%#v` object dump or a stack rendering in the
  description, the model keeps only the cause text (debug rendering of
  arbitrary objects is explicitly outside the core per the specification's
  scope section); this affects no claim, which observe kinds and cause texts
  only.
-/

namespace SimpleFsm

/-- Error kinds, from the `FsmErrorKind` enumeration in the source. -/
inductive FsmErrorKind where
  | ctxKeyNotFound
  | ctxInvalidType
  | stateAlreadyExists
  | stateIsInvalid
  | fsmLoading
  | fsmWrongFlow
  | fsmIsInvalid
  | fsmRuntime
  | fsmCallbackFailed
  | fsmInFatalState
  deriving DecidableEq, Repr

/-- `FsmError`: error kind plus rendered description. -/
structure FsmError where
  kind : FsmErrorKind
  description : String
  deriving DecidableEq, Repr

/-- `newCtxErrorKeyNotFound`. -/
def newCtxErrorKeyNotFound (key : String) : FsmError :=
  { kind := .ctxKeyNotFound, description := key }

/-- `newFsmErrorStateIsInvalid` (object dump omitted from the description). -/
def newFsmErrorStateIsInvalid (cause : String) : FsmError :=
  { kind := .stateIsInvalid, description := cause }

/-- `newFsmErrorTransitionIsInvalid`; note the source gives it kind
`ErrStateIsInvalid` as well (object dump omitted from the description). -/
def newFsmErrorTransitionIsInvalid (cause : String) : FsmError :=
  { kind := .stateIsInvalid, description := cause }

/-- `newFsmErrorStateAlreadyExists`. -/
def newFsmErrorStateAlreadyExists (name : String) : FsmError :=
  { kind := .stateAlreadyExists, description := name }

/-- `newFsmErrorLoading`. -/
def newFsmErrorLoading (cause : String) : FsmError :=
  { kind := .fsmLoading, description := cause }

/-- `newFsmErrorWrongFlow`. -/
def newFsmErrorWrongFlow (action : String) (fsmState : String) : FsmError :=
  { kind := .fsmWrongFlow, description := "Can\x27t " ++ action ++ " while FSM is " ++ fsmState }

/-- `newFsmErrorInvalid`. -/
def newFsmErrorInvalid (cause : String) : FsmError :=
  { kind := .fsmIsInvalid, description := cause }

/-- `newFsmErrorRuntime` (the `%#v` dump of the auxiliary object is omitted). -/
def newFsmErrorRuntime (cause : String) : FsmError :=
  { kind := .fsmRuntime, description := cause }

/-- `newFsmErrorCallbackFailed`: wraps the error string reported by a
user-supplied guard or action callback. -/
def newFsmErrorCallbackFailed (who : String) (e : String) : FsmError :=
  { kind := .fsmCallbackFailed, description := who ++ ", \"" ++ e ++ "\"" }

/-- `FsmError.Error()`: the rendered message for each kind. -/
def FsmError.errorString (e : FsmError) : String :=
  match e.kind with
  | .ctxKeyNotFound => "No such key in the context: \"" ++ e.description ++ "\""
  | .ctxInvalidType => "Value has a type different from requested, " ++ e.description
  | .stateAlreadyExists => "State with the name \"" ++ e.description ++ "\" is already added"
  | .stateIsInvalid => "This state is not valid: " ++ e.description
  | .fsmLoading => "Structure loading error: " ++ e.description
  | .fsmWrongFlow => "You\x27re using it wrong: " ++ e.description
  | .fsmIsInvalid => "FSM internal structure is invalid: " ++ e.description
  | .fsmRuntime => "FSM encountered runtime error: " ++ e.description
  | .fsmCallbackFailed => "User-defined callback returned an error: " ++ e.description
  | .fsmInFatalState => "FSM stopped due to fatal error: " ++ e.description

/-- `newFsmErrorInFatalState`: wraps the causing error together with stack and
history renderings (passed in as already-rendered text). -/
def newFsmErrorInFatalState (cause : FsmError) (stackDump : String) (historyDump : String) :
    FsmError :=
  { kind := .fsmInFatalState
    description :=
      "\ncause:\n" ++ cause.errorString ++ "\n\nstack:\n\n" ++ stackDump ++
      "\nhistory:\n" ++ historyDump }

/-- `FsmGlobalStateName` constant. -/
def FsmGlobalStateName : String := "global"

/-- `FsmResultCtxMemberName` constant. -/
def FsmResultCtxMemberName : String := "result"

/-- `FsmAutoStatesCount` constant. -/
def FsmAutoStatesCount : Nat := 1

/-! ## Context (context.go) -/

/-- `Context`: associative storage `members map[string]interface{}`, modelled
as a functional map into the opaque value type `α`. -/
def Context (α : Type) : Type := String → Option α

/-- `newContext`: empty member map. -/
def newContext {α : Type} : Context α := fun _ => none

/-- `Context.Put`: adds/overwrites a member. -/
def Context.put {α : Type} (ctx : Context α) (key : String) (value : α) : Context α :=
  fun k => if k = key then some value else ctx k

/-- `Context.PutResult`: `Put` on the designated "result" member. -/
def Context.putResult {α : Type} (ctx : Context α) (result : α) : Context α :=
  ctx.put FsmResultCtxMemberName result

/-- `Context.Has`. -/
def Context.has {α : Type} (ctx : Context α) (key : String) : Bool :=
  (ctx key).isSome

/-- `Context.Raw`: member lookup, key-not-found error when absent. -/
def Context.raw {α : Type} (ctx : Context α) (key : String) : Except FsmError α :=
  match ctx key with
  | some v => .ok v
  | none => .error (newCtxErrorKeyNotFound key)

/-! ## Context stack (context_stack.go) -/

/-- Pointer identity of a `StateInfo` node. -/
abbrev StateId : Type := Nat

/-- `StateContext`: stack element pairing a state (by pointer identity) with
its scope. -/
structure StateContext (α : Type) where
  state : StateId
  context : Context α

/-- `newStateContext`. -/
def newStateContext {α : Type} (state : StateId) : StateContext α :=
  { state := state, context := newContext }

/-- `ContextStack`: LIFO of `StateContext`s.  The Go slice keeps the head at
its end; here the list head is the stack head. -/
structure ContextStack (α : Type) where
  stack : List (StateContext α)

/-- `newContextStack`. -/
def newContextStack {α : Type} : ContextStack α := ⟨[]⟩

/-- `ContextStack.Depth`. -/
def ContextStack.depth {α : Type} (st : ContextStack α) : Nat := st.stack.length

/-- `ContextStack.Empty`. -/
def ContextStack.isEmpty {α : Type} (st : ContextStack α) : Bool := st.depth ≤ 0

/-- `ContextStack.Peek`: head of the stack, `none` when empty. -/
def ContextStack.peek {α : Type} (st : ContextStack α) : Option (StateContext α) :=
  st.stack.head?

/-- `ContextStack.Global`: outermost (bottom) entry, `none` when empty. -/
def ContextStack.global {α : Type} (st : ContextStack α) : Option (StateContext α) :=
  st.stack.getLast?

/-- `ContextStack.Pop`: returns the head and the stack without it; on an empty
stack returns a null marker and the unchanged stack. -/
def ContextStack.pop {α : Type} (st : ContextStack α) :
    Option (StateContext α) × ContextStack α :=
  match st.stack with
  | [] => (none, st)
  | f :: rest => (some f, ⟨rest⟩)

/-- `ContextStack.Push`: no-op returning a null marker when the state is nil
or equal to the current head's state; otherwise appends a fresh
`StateContext` and returns it. -/
def ContextStack.push {α : Type} (st : ContextStack α) (state : Option StateId) :
    Option (StateContext α) × ContextStack α :=
  match state with
  | none => (none, st)
  | some s =>
    match st.stack with
    | f :: _ =>
      if f.state = s then (none, st)
      else (some (newStateContext s), ⟨newStateContext s :: st.stack⟩)
    | [] => (some (newStateContext s), ⟨newStateContext s :: st.stack⟩)

/-- The scan loop of `ContextStack.Raw`: from the head toward the bottom,
return the first context that holds the key; exhaustion yields the
key-not-found error (which is also what the final failing iteration of the
Go loop leaves in `err`). -/
def rawScan {α : Type} (key : String) : List (StateContext α) → Except FsmError α
  | [] => .error (newCtxErrorKeyNotFound key)
  | f :: rest =>
    match f.context.raw key with
    | .ok v => .ok v
    | .error _ => rawScan key rest

/-- `ContextStack.Raw`: scoped lookup, innermost scope first. -/
def ContextStack.raw {α : Type} (st : ContextStack α) (key : String) : Except FsmError α :=
  if st.isEmpty then .error (newCtxErrorKeyNotFound key)
  else rawScan key st.stack

/-- `ContextStack.Has`. -/
def ContextStack.has {α : Type} (st : ContextStack α) (key : String) : Bool :=
  match st.raw key with
  | .ok _ => true
  | .error _ => false

/-- `ContextStack.Put`: writes into the head scope; error on an empty stack. -/
def ContextStack.put {α : Type} (st : ContextStack α) (key : String) (value : α) :
    Option FsmError × ContextStack α :=
  if st.isEmpty then
    (some (newFsmErrorRuntime "Can\x27t put to empty context stack"), st)
  else
    match st.stack with
    | [] => (some (newFsmErrorRuntime "Can\x27t put to empty context stack"), st)
    | f :: rest => (none, ⟨{ f with context := f.context.put key value } :: rest⟩)

/-- `ContextStack.PutResult`: writes the "result" member into the outermost
(bottom, `Global`) scope; error on an empty stack. -/
def ContextStack.putResult {α : Type} (st : ContextStack α) (result : α) :
    Option FsmError × ContextStack α :=
  if st.isEmpty then
    (some (newFsmErrorRuntime "Can\x27t put to empty context stack"), st)
  else
    match st.stack.getLast? with
    | none => (some (newFsmErrorRuntime "Can\x27t put to empty context stack"), st)
    | some g =>
      (none, ⟨st.stack.dropLast ++ [{ g with context := g.context.putResult result }]⟩)

/-! ## Transitions (transition.go, the variant compiled with fsm.go:
`Action` is a plain `ActionFn`) -/

/-- `GuardFn`: `func(ctx ContextAccessor) (open bool, err error)`.  The guard
receives read-only access to the stack and reports openness plus an optional
error (the Go `error` is modelled by its message string). -/
def GuardFn (α : Type) : Type := ContextStack α → Bool × Option String

/-- `ActionFn`: `func(ctx ContextOperator) error`.  The action receives
read-write access to the stack; its net effect is the resulting stack plus an
optional error.  The `ContextOperator` capability only allows context writes,
never frame insertion/removal; that restriction is expressed by the
`preservesFrames` predicate used as a hypothesis where needed. -/
def ActionFn (α : Type) : Type := ContextStack α → ContextStack α × Option String

/-- `Transition`: name, destination state name, nilable guard and action. -/
structure Transition (α : Type) where
  Name : String
  ToState : String
  Guard : Option (GuardFn α)
  Action : Option (ActionFn α)

/-- `NewTransitionAlways`: singleton list holding one unconditional
transition. -/
def NewTransitionAlways {α : Type} (name : String) (toName : String)
    (action : Option (ActionFn α)) : List (Transition α) :=
  [{ Name := name, ToState := toName, Guard := some (fun _ => (true, none)), Action := action }]

/-- `Transition.Validate` (fsm-side variant: no action validation). -/
def Transition.validate {α : Type} (tr : Transition α) : Option FsmError :=
  if tr.Name = "" then
    some (newFsmErrorTransitionIsInvalid "transition should be named")
  else if tr.ToState = "" then
    some (newFsmErrorTransitionIsInvalid "transition should have proper destination")
  else if tr.Guard.isNone then
    some (newFsmErrorTransitionIsInvalid "condition has to be present")
  else none

/-! ## State hierarchy (state_info.go) -/

/-- `StateInfo`: tree node with name, parent back-pointer, optional start
substate and transition list.  Pointers are `StateId`s into a heap. -/
structure StateNode (α : Type) where
  Name : String
  Parent : Option StateId
  StartSubState : Option StateId
  Transitions : List (Transition α)

/-- The program heap: dereference of a `StateInfo` pointer. -/
def Heap (α : Type) : Type := StateId → StateNode α

/-- Heap update (pointer write). -/
def heapSet {α : Type} (h : Heap α) (id : StateId) (node : StateNode α) : Heap α :=
  fun i => if i = id then node else h i

/-- `NewState`. -/
def NewState {α : Type} (name : String) (transitions : List (Transition α)) : StateNode α :=
  { Name := name, Parent := none, StartSubState := none, Transitions := transitions }

/-- `StateInfo.Final`: no outgoing transitions. -/
def StateNode.Final {α : Type} (si : StateNode α) : Bool :=
  si.Transitions.length ≤ 0

/-- `StateInfo.addSubState`: links `sub` under parent `si`, mutating the
heap.  Returns the error (if any) together with the heap after the call:
note that the "parent has transitions" failure happens only after both the
parent link and the start-substate link have been written. -/
def addSubState {α : Type} (h : Heap α) (si : StateId) (sub : StateId) (start : Bool) :
    Option FsmError × Heap α :=
  if (h sub).Parent.isSome then
    (some (newFsmErrorStateIsInvalid "Sub state already has a parent"), h)
  else if start ∧ (h si).StartSubState.isSome then
    (some (newFsmErrorStateIsInvalid "Parent state already has start sub state defined"), h)
  else
    let h1 := heapSet h sub { h sub with Parent := some si }
    if start then
      let h2 := heapSet h1 si { h1 si with StartSubState := some sub }
      if (h2 si).Transitions.length > 0 then
        (some (newFsmErrorStateIsInvalid
          ("Start transition can\x27t be used on\n\t\t\t\tparent with transitions defined, " ++
           "it\x27ll lead to discarding original\n\t\t\t\ttransitions")), h2)
      else
        let trName := "Always " ++ (h2 si).Name ++ "->" ++ (h2 sub).Name
        (none, heapSet h2 si
          { h2 si with Transitions := NewTransitionAlways trName ((h2 sub).Name) none })
    else (none, h1)

/-- The `make_path` closure of `findCommonAncestor`: root-to-node path built
by walking `Parent` links.  `fuel` bounds the number of parent steps taken;
`none` models the Go loop not terminating within that bound (in Go the heap
is finite, so enough fuel always exists for acyclic chains). -/
def pathToRoot {α : Type} (h : Heap α) (fuel : Nat) (s : StateId) : Option (List StateId) :=
  match (h s).Parent with
  | none => some [s]
  | some p =>
    match fuel with
    | 0 => none
    | f + 1 => (pathToRoot h f p).map (· ++ [s])

/-- The comparison loop of `findCommonAncestor`: walk both root-first paths
in lockstep, remembering the last matching node; stop at the first mismatch
or when either path is exhausted. -/
def lastCommon : List StateId → List StateId → Option StateId → Option StateId
  | a :: as, b :: bs, ancestor =>
    if a = b then lastCommon as bs (some a) else ancestor
  | _, _, ancestor => ancestor

/-- `findCommonAncestor`: common parent of two states plus the signed depth
difference `depth(lhs) − depth(rhs)`.  The outer `Option` is the fuel bound
on the parent walks. -/
def findCommonAncestor {α : Type} (h : Heap α) (fuel : Nat) (lhs rhs : StateId) :
    Option (Option StateId × Int) :=
  if lhs = rhs then some (some lhs, 0)
  else
    match pathToRoot h fuel lhs, pathToRoot h fuel rhs with
    | some lp, some rp => some (lastCommon lp rp none, (lp.length : Int) - (rp.length : Int))
    | _, _ => none

/-- Length of the longest common prefix of two paths (used only to state the
specification's "last node at which the two root-to-node paths agree"). -/
def commonPrefixLen : List StateId → List StateId → Nat
  | a :: as, b :: bs => if a = b then commonPrefixLen as bs + 1 else 0
  | _, _ => 0

/-- The specification's description of the common ancestor: the last node of
the longest common prefix of the two root-to-node paths. -/
def specCommonAncestor (lp rp : List StateId) : Option StateId :=
  (lp.take (commonPrefixLen lp rp)).getLast?

/-! ## History (history.go) -/

/-- `HistoryItem`: (from-state, to-state, transition-name) triple. -/
structure HistoryItem where
  fromState : String
  toState : String
  transition : String
  deriving DecidableEq, Repr

/-- `History.Dump`: textual rendering of the history list. -/
def historyDump (items : List HistoryItem) : String :=
  (if items.isEmpty then "(empty)"
   else String.join (items.map (fun it =>
     "from: " ++ it.fromState ++ ", to: " ++ it.toState ++
     ", transition: " ++ it.transition ++ "\n"))) ++ "\n"

/-- `Dump(&fsm.stack)`: the rendered text of a context stack.  Rendering `%v`
of opaque context values is debug output outside the modelled core (the
specification's scope section excludes dump rendering); the string takes part
only as an opaque component of the fatal wrapper's description. -/
def stackDumpStr {α : Type} (_st : ContextStack α) : String :=
  "<stack dump>"

/-! ## Structure (structure.go) -/

/-- `Structure`: the state table (name → state) and the synthetic global
start state.  The program heap holding the `StateInfo` nodes is carried
alongside. -/
structure Structure (α : Type) where
  stateOf : Heap α
  states : List (String × StateId)
  start : StateId

/-! ## Structure validation (state_info.go `Validate` + structure.go
`Validate`) -/

/-- The walk of `checkHierarchyCycled`: climb parent links collecting names;
a repeated name is a cycle.  `fuel` bounds the walk; `none` models the (in Go
impossible, since the heap is finite) case of never revisiting a name nor
reaching a root within the bound. -/
def cycledWalk {α : Type} (h : Heap α) : Nat → List String → Option StateId → Option Bool
  | _, _, none => some false
  | 0, _, some _ => none
  | f + 1, visited, some id =>
    if (h id).Name ∈ visited then some true
    else cycledWalk h f ((h id).Name :: visited) (h id).Parent

/-- `StateInfo.checkHierarchyCycled`. -/
def checkHierarchyCycled {α : Type} (h : Heap α) (fuel : Nat) (id : StateId) : Option Bool :=
  cycledWalk h fuel [] (some id)

/-- The transition loop of `StateInfo.Validate`: first failing transition
wins. -/
def transitionsValidate {α : Type} : List (Transition α) → Option FsmError
  | [] => none
  | tr :: rest =>
    match tr.validate with
    | some e => some e
    | none => transitionsValidate rest

/-- `StateInfo.Validate`: named, acyclic hierarchy, and (for non-final
states) individually valid transitions.  Outer `none` = fuel exhaustion of
the cycle walk. -/
def stateValidate {α : Type} (h : Heap α) (fuel : Nat) (id : StateId) :
    Option (Option FsmError) :=
  if (h id).Name = "" then
    some (some (newFsmErrorStateIsInvalid "state should be named"))
  else
    match checkHierarchyCycled h fuel id with
    | none => none
    | some true => some (some (newFsmErrorStateIsInvalid "state hierarchy is cycled"))
    | some false =>
      if !(h id).Final then some (transitionsValidate (h id).Transitions)
      else some none

/-- The per-transition body of `Structure.Validate`'s main loop: the target
must resolve in the table, source and target must have a common ancestor, and
the target name is marked as referenced. -/
def validateTransLoop {α : Type} (fstr : Structure α) (fuel : Nat) (sid : StateId) :
    List (Transition α) → (String → Bool) → Option (Except FsmError (String → Bool))
  | [], refs => some (.ok refs)
  | tr :: rest, refs =>
    match List.lookup tr.ToState fstr.states with
    | none =>
      some (.error (newFsmErrorInvalid
        ("transition \"" ++ tr.Name ++ "\" of state \"" ++ (fstr.stateOf sid).Name ++
         "\" has unknown destination \"" ++ tr.ToState ++ "\"")))
    | some target =>
      match findCommonAncestor fstr.stateOf fuel sid target with
      | none => none
      | some (none, _) =>
        some (.error (newFsmErrorInvalid
          ("\"" ++ (fstr.stateOf sid).Name ++ "\" and \"" ++ tr.ToState ++
           "\" don\x27t have a common parent")))
      | some (some _, _) =>
        validateTransLoop fstr fuel sid rest
          (fun n => if n = tr.ToState then true else refs n)

/-- The main loop of `Structure.Validate` over the state table. -/
def validateStatesLoop {α : Type} (fstr : Structure α) (fuel : Nat) :
    List (String × StateId) → (String → Bool) → Option (Except FsmError (String → Bool))
  | [], refs => some (.ok refs)
  | (_, sid) :: rest, refs =>
    match stateValidate fstr.stateOf fuel sid with
    | none => none
    | some (some e) => some (.error e)
    | some none =>
      match validateTransLoop fstr fuel sid (fstr.stateOf sid).Transitions refs with
      | none => none
      | some (.error e) => some (.error e)
      | some (.ok refs') => validateStatesLoop fstr fuel rest refs'

/-- `Structure.Validate`: per-state validation, resolvable transition
targets, common ancestors, then the dead-state sweep.  (Go iterates its maps
in unspecified order; the model iterates the table list in order — the
success/failure outcome is order independent.) -/
def structureValidate {α : Type} (fstr : Structure α) (fuel : Nat) :
    Option (Option FsmError) :=
  match validateStatesLoop fstr fuel fstr.states
      (fun n => n = (fstr.stateOf fstr.start).Name) with
  | none => none
  | some (.error e) => some (some e)
  | some (.ok refs) =>
    if ((fstr.states.map Prod.fst).filter (fun n => !refs n)).length > 0 then
      some (some (newFsmErrorInvalid
        ("there are isolated states: " ++
         String.join (((fstr.states.map Prod.fst).filter (fun n => !refs n)).map
           (fun n => "\"" ++ n ++ "\", ")))))
    else some none

/-! ## Fsm (fsm.go) -/

/-- `Fsm`: structure reference plus mutable run state. -/
structure Fsm (α : Type) where
  fstr : Structure α
  stack : ContextStack α
  history : List HistoryItem
  fatal : Option FsmError

/-- `initStackAutoStates`: seed an empty stack with the global state. -/
def initStackAutoStates {α : Type} (fstr : Structure α) (st : ContextStack α) :
    ContextStack α :=
  if st.isEmpty then (st.push (some fstr.start)).2 else st

/-- `NewFsm`. -/
def NewFsm {α : Type} (fstr : Structure α) : Fsm α :=
  { fstr := fstr
    stack := initStackAutoStates fstr newContextStack
    history := []
    fatal := none }

/-- `Fsm.Reset`. -/
def Fsm.Reset {α : Type} (M : Fsm α) : Fsm α :=
  { M with
    stack := initStackAutoStates M.fstr newContextStack
    history := []
    fatal := none }

/-- `Fsm.Fatal()`. -/
def Fsm.FatalB {α : Type} (M : Fsm α) : Bool := M.fatal.isSome

/-- `Fsm.Completed()`: not fatal, below the auto states there is a current
state and it is final (the `&&` short-circuit protects the `Peek`
dereference). -/
def Fsm.CompletedB {α : Type} (M : Fsm α) : Bool :=
  !M.FatalB && decide (M.stack.depth > FsmAutoStatesCount) &&
    (match M.stack.peek with
     | some f => (M.fstr.stateOf f.state).Final
     | none => false)

/-- `Fsm.Running()`. -/
def Fsm.RunningB {α : Type} (M : Fsm α) : Bool :=
  decide (M.stack.depth > FsmAutoStatesCount) && !M.FatalB && !M.CompletedB

/-- `Fsm.Idle()`. -/
def Fsm.IdleB {α : Type} (M : Fsm α) : Bool :=
  !M.RunningB && !M.CompletedB && !M.FatalB

/-- `goFatal`: wrap and store the cause, unless a fatal error is already
stored (the first fatal error is never overwritten). -/
def Fsm.goFatal {α : Type} (M : Fsm α) (cause : FsmError) : Fsm α :=
  if M.fatal.isSome then M
  else
    { M with
      fatal := some (newFsmErrorInFatalState cause (stackDumpStr M.stack)
        (historyDump M.history)) }

/-- The guard-evaluation loop of `Advance`: walks the transition list,
remembering the last open transition and the open count; a guard error stops
the loop.  `none` models the panic of invoking a nil `Guard`. -/
def scanTransitions {α : Type} (st : ContextStack α) :
    List (Transition α) → Option (Transition α) → Nat →
    Option (Except String (Option (Transition α) × Nat))
  | [], tr, cnt => some (.ok (tr, cnt))
  | t :: rest, tr, cnt =>
    match t.Guard with
    | none => none
    | some g =>
      match (g st).2 with
      | some msg => some (.error msg)
      | none =>
        if (g st).1 then scanTransitions st rest (some t) (cnt + 1)
        else scanTransitions st rest tr cnt

/-- The stack-popping loop of `Advance`: pop `n` times but never below the
auto-state floor. -/
def popLoop {α : Type} : Nat → ContextStack α → ContextStack α
  | 0, st => st
  | n + 1, st =>
    if st.depth ≤ FsmAutoStatesCount then st
    else popLoop n (st.pop).2

/-- The push/log/action tail of `Advance`, applied to the already-popped
stack `stack1`. -/
def advancePush {α : Type} (M : Fsm α) (currentName : String) (tr : Transition α)
    (nextId : StateId) (stack1 : ContextStack α) :
    Option (Option HistoryItem × Option FsmError × Fsm α) :=
  let pushed := stack1.push (some nextId)
  match pushed.1 with
  | none =>
    let err := newFsmErrorRuntime "pushing new state to the stack failed"
    some (none, some err, (Fsm.goFatal { M with stack := pushed.2 } err))
  | some _ =>
    let step : HistoryItem :=
      { fromState := currentName
        toState := (M.fstr.stateOf nextId).Name
        transition := tr.Name }
    let M2 := { M with stack := pushed.2, history := M.history ++ [step] }
    match tr.Action with
    | none => some (some step, none, M2)
    | some act =>
      let res := act M2.stack
      let M3 := { M2 with stack := res.1 }
      match res.2 with
      | some msg =>
        let err := newFsmErrorCallbackFailed "entry action" msg
        some (some step, some err, M3.goFatal err)
      | none => some (some step, none, M3)

/-- The common-ancestor / scope-popping stage of `Advance`, once the unique
open transition `tr` and its destination `nextId` are known. -/
def advanceResolve {α : Type} (fuel : Nat) (M : Fsm α) (currentState : StateId)
    (currentName : String) (tr : Transition α) (nextId : StateId) :
    Option (Option HistoryItem × Option FsmError × Fsm α) :=
  match findCommonAncestor M.fstr.stateOf fuel currentState nextId with
  | none => none
  | some (ancestor, depthDiff) =>
    match ancestor with
    | none =>
      let err := newFsmErrorRuntime
        ("\"" ++ currentName ++ "\" and \"" ++ (M.fstr.stateOf nextId).Name ++
         "\" don\x27t have a common parent")
      some (none, some err, M.goFatal err)
    | some _ =>
      if depthDiff = -1 then
        advancePush M currentName tr nextId M.stack
      else if depthDiff < -1 then
        let err := newFsmErrorRuntime "Trying to go deeper than 1 state at a time"
        some (none, some err, M.goFatal err)
      else
        advancePush M currentName tr nextId (popLoop (depthDiff.toNat + 1) M.stack)

/-- The guard-scan / destination-resolution stage of `Advance` (everything
after the status switch). -/
def advanceStep {α : Type} (fuel : Nat) (M : Fsm α) (current : StateContext α)
    (currentName : String) : Option (Option HistoryItem × Option FsmError × Fsm α) :=
  match scanTransitions M.stack (M.fstr.stateOf current.state).Transitions none 0 with
  | none => none
  | some (.error msg) =>
    let err := newFsmErrorCallbackFailed "guard" msg
    some (none, some err, M.goFatal err)
  | some (.ok (trOpt, cnt)) =>
    match cnt, trOpt with
    | 0, _ =>
      let err := newFsmErrorRuntime "all transitions are closed"
      some (none, some err, M.goFatal err)
    | 1, some tr =>
      match List.lookup tr.ToState M.fstr.states with
      | some nextId => advanceResolve fuel M current.state currentName tr nextId
      | none => none
    | 1, none => none
    | _ + 2, _ =>
      let err := newFsmErrorRuntime "more than 1 transitions are opened"
      some (none, some err, M.goFatal err)

/-- `Fsm.Advance`: one step of the machine.  A `none` result models a call
that does not return normally in Go (nil-pointer dereference of an empty
stack head or a nil guard, the `goFatal(nil)` rendering panic on a
successfully counted transition whose destination is missing from the table,
or a non-terminating parent walk); `fuel` bounds the parent walks of the
common-ancestor computation and of validation.

In the `cnt == 1` branch Go would reach `next == nil && err == nil` when the
table lookup fails and then panic inside `goFatal(nil)`; that path is the
`| none => none` case after the lookup.  Go's `case 1` with a nil recorded
transition cannot happen (a count of one records the transition); it is also
mapped to the crash value. -/
def Advance {α : Type} (fuel : Nat) (M : Fsm α) :
    Option (Option HistoryItem × Option FsmError × Fsm α) :=
  match M.stack.peek with
  | none => none
  | some current =>
    let currentName := (M.fstr.stateOf current.state).Name
    if M.IdleB then
      match structureValidate M.fstr fuel with
      | none => none
      | some (some err) => some (none, some err, M.goFatal err)
      | some none => advanceStep fuel M current currentName
    else if M.CompletedB then
      some (none, some (newFsmErrorWrongFlow "advance" "completed"), M)
    else if M.FatalB then
      some (none, M.fatal, M)
    else advanceStep fuel M current currentName

/-- Frame-state shape of a stack: the state ids of its frames, head first. -/
def framesOf {α : Type} (st : ContextStack α) : List StateId :=
  st.stack.map (fun f => f.state)

/-- The effect permitted to an action by its `ContextOperator` capability:
it may rewrite contexts (`Put`, `PutResult`) but can neither insert nor
remove frames nor change their states. -/
def preservesFrames {α : Type} (act : ActionFn α) : Prop :=
  ∀ st, framesOf (act st).1 = framesOf st

/-- All actions reachable from a structure's transition table respect the
`ContextOperator` capability. -/
def actionsPreserve {α : Type} (fstr : Structure α) : Prop :=
  ∀ (id : StateId) (tr : Transition α) (act : ActionFn α),
    tr ∈ (fstr.stateOf id).Transitions → tr.Action = some act → preservesFrames act

/-! ## Lemmas about the scoped lookup -/

theorem rawScan_first {α : Type} (key : String) :
    ∀ (l : List (StateContext α)) (i : Nat) (f : StateContext α) (v : α),
      l.get? i = some f → f.context key = some v →
      (∀ j g, j < i → l.get? j = some g → g.context key = none) →
      rawScan key l = .ok v := by
  intro l
  induction l with
  | nil => intro i f v hget; simp at hget
  | cons hd tl ih =>
    intro i f v hget hval hbefore
    cases i with
    | zero =>
      simp at hget
      subst hget
      simp [rawScan, Context.raw, hval]
    | succ n =>
      have hhd : hd.context key = none := hbefore 0 hd (Nat.succ_pos n) rfl
      simp at hget
      have := ih n f v (by simpa [List.get?_eq_getElem?] using hget) hval
        (fun j g hj hg => hbefore (j + 1) g (by omega) (by simpa using hg))
      simp [rawScan, Context.raw, hhd, this]

theorem rawScan_notFound {α : Type} (key : String) :
    ∀ (l : List (StateContext α)),
      (∀ f ∈ l, f.context key = none) →
      rawScan key l = .error (newCtxErrorKeyNotFound key) := by
  intro l
  induction l with
  | nil => intro _; rfl
  | cons hd tl ih =>
    intro h
    have hhd : hd.context key = none := h hd (List.mem_cons_self hd tl)
    simp [rawScan, Context.raw, hhd]
    exact ih (fun f hf => h f (List.mem_cons_of_mem hd hf))

/-- For every non-empty `ContextStack` and key `k`: `Raw` scans the scopes
from the innermost (head) entry toward the outermost (root) entry and returns
the value of the first scope containing `k` (a nearer scope shadows a farther
one), and returns a key-not-found error when no scope contains `k`; `Put`
always writes into the head scope; `PutResult` always writes the "result"
member into the outermost (root) scope regardless of the stack depth. -/
theorem claim_C7 {α : Type} (st : ContextStack α) (k : String) (hne : st.stack ≠ []) :
    (∀ i f v, st.stack.get? i = some f → f.context k = some v →
        (∀ j g, j < i → st.stack.get? j = some g → g.context k = none) →
        st.raw k = .ok v)
    ∧ ((∀ f ∈ st.stack, f.context k = none) →
        st.raw k = .error (newCtxErrorKeyNotFound k))
    ∧ (∀ val : α, ∃ f rest, st.stack = f :: rest ∧
        st.put k val = (none, ⟨{ f with context := f.context.put k val } :: rest⟩))
    ∧ (∀ r : α, ∃ g, st.stack.getLast? = some g ∧
        st.putResult r =
          (none, ⟨st.stack.dropLast ++ [{ g with context := g.context.putResult r }]⟩)) := by
  have hempty : st.isEmpty = false := by
    unfold ContextStack.isEmpty ContextStack.depth
    cases h : st.stack with
    | nil => exact absurd h hne
    | cons a l => simp
  refine ⟨?_, ?_, ?_, ?_⟩
  · intro i f v hget hval hbefore
    unfold ContextStack.raw
    rw [hempty]
    simp only [Bool.false_eq_true, if_false]
    exact rawScan_first k st.stack i f v hget hval hbefore
  · intro h
    unfold ContextStack.raw
    rw [hempty]
    simp only [Bool.false_eq_true, if_false]
    exact rawScan_notFound k st.stack h
  · intro val
    cases h : st.stack with
    | nil => exact absurd h hne
    | cons f rest =>
      refine ⟨f, rest, rfl, ?_⟩
      unfold ContextStack.put
      rw [hempty]
      simp only [Bool.false_eq_true, if_false, h]
  · intro r
    cases h : st.stack.getLast? with
    | none => exact absurd (List.getLast?_eq_none_iff.mp h) hne
    | some g =>
      refine ⟨g, rfl, ?_⟩
      unfold ContextStack.putResult
      rw [hempty]
      simp only [Bool.false_eq_true, if_false, h]

/-- Witness for `claim_C7` on a concrete two-scope stack. -/
theorem claim_C7_witness :
    (let st : ContextStack Nat :=
      ⟨[{ state := 1, context := Context.put newContext "k" 7 },
        { state := 0, context := Context.put newContext "k" 5 }]⟩
     st.stack ≠ [] ∧
      ((∀ i f v, st.stack.get? i = some f → f.context "k" = some v →
          (∀ j g, j < i → st.stack.get? j = some g → g.context "k" = none) →
          st.raw "k" = .ok v)
        ∧ ((∀ f ∈ st.stack, f.context "k" = none) →
            st.raw "k" = .error (newCtxErrorKeyNotFound "k"))
        ∧ (∀ val : Nat, ∃ f rest, st.stack = f :: rest ∧
            st.put "k" val = (none, ⟨{ f with context := f.context.put "k" val } :: rest⟩))
        ∧ (∀ r : Nat, ∃ g, st.stack.getLast? = some g ∧
            st.putResult r =
              (none, ⟨st.stack.dropLast ++
                [{ g with context := g.context.putResult r }]⟩)))) := by
  refine ⟨by simp, claim_C7 _ "k" (by simp)⟩

/-- For every `ContextStack`: `Push` returns a null marker and leaves the
stack unchanged when the state to push is null or identical to the state at
the current head; `Pop` on an empty stack returns a null marker rather than
failing; in all other cases `Push` prepends exactly one new entry for the
given state. -/
theorem claim_C8 {α : Type} :
    (∀ st : ContextStack α, st.push none = (none, st))
    ∧ (∀ (st : ContextStack α) (f : StateContext α) (rest : List (StateContext α))
        (s : StateId), st.stack = f :: rest → f.state = s → st.push (some s) = (none, st))
    ∧ (∀ (st : ContextStack α) (s : StateId),
        (∀ f, st.stack.head? = some f → f.state ≠ s) →
        st.push (some s) = (some (newStateContext s), ⟨newStateContext s :: st.stack⟩))
    ∧ (newContextStack (α := α)).pop = (none, newContextStack) := by
  refine ⟨?_, ?_, ?_, rfl⟩
  · intro st; rfl
  · intro st f rest s hstack hstate
    unfold ContextStack.push
    rw [hstack]
    simp [hstate]
  · intro st s hhead
    unfold ContextStack.push
    cases h : st.stack with
    | nil => simp
    | cons f rest =>
      have hfs : f.state ≠ s := hhead f (by rw [h]; rfl)
      simp [hfs]

/-- Witness for `claim_C8` at a concrete one-frame stack and state. -/
theorem claim_C8_witness :
    (let st : ContextStack Nat := ⟨[{ state := 3, context := newContext }]⟩
     st.stack = { state := 3, context := newContext (α := Nat) } :: [] ∧
      (StateContext.state { state := 3, context := newContext (α := Nat) } = 3) ∧
      (∀ f, st.stack.head? = some f → f.state ≠ 4) ∧
      ((∀ st' : ContextStack Nat, st'.push none = (none, st'))
        ∧ (∀ (st' : ContextStack Nat) (f : StateContext Nat) (rest : List (StateContext Nat))
            (s : StateId), st'.stack = f :: rest → f.state = s → st'.push (some s) = (none, st'))
        ∧ (∀ (st' : ContextStack Nat) (s : StateId),
            (∀ f, st'.stack.head? = some f → f.state ≠ s) →
            st'.push (some s) = (some (newStateContext s), ⟨newStateContext s :: st'.stack⟩))
        ∧ (newContextStack (α := Nat)).pop = (none, newContextStack))) := by
  refine ⟨rfl, rfl, ?_, claim_C8⟩
  intro f hf
  simp at hf
  subst hf
  simp

/-! ## Claim C10: addSubState is not atomic on the "parent has transitions"
failure -/

/-- A heap exhibiting a parent that owns transitions *and* already has a
start substate (the situation produced by an earlier successful
`addSubState(_, start=true)` call, which installs both the substate link and
the synthesized always-transition). -/
def exHeapC10 : Heap Nat := fun i =>
  if i = 0 then
    { Name := "p", Parent := none, StartSubState := some 2,
      Transitions := NewTransitionAlways "Always p->q" "q" none }
  else if i = 1 then
    { Name := "c", Parent := none, StartSubState := none, Transitions := [] }
  else
    { Name := "q", Parent := some 0, StartSubState := none, Transitions := [] }

/-- The claim quantifies over every parent with a non-empty transition list
and every parentless child; this input meets those hypotheses, yet the
failing `addSubState` call mutates nothing: when the parent already has a
start substate the error fires before any field is written, so the claimed
post-state (`p.StartSubState = c`) does not hold. -/
theorem claim_C10_counterexample :
    (exHeapC10 0).Transitions.length > 0
    ∧ (exHeapC10 1).Parent = none
    ∧ (addSubState exHeapC10 0 1 true).1.isSome = true
    ∧ ¬ (((addSubState exHeapC10 0 1 true).2 1).Parent = some 0
          ∧ ((addSubState exHeapC10 0 1 true).2 0).StartSubState = some 1) := by
  refine ⟨by decide, by decide, by decide, ?_⟩
  intro hcontra
  have := hcontra.2
  revert this
  decide

/-- Amended claim: for every parent state `p` that owns a non-empty
transition list and has no start substate yet, and every child `c` with no
parent, `addSubState(c, start=true)` on `p` returns a state-is-invalid error,
but after the call `c`'s `Parent` field has been set to `p` and `p`'s
`StartSubState` field has been set to `c` — the failing call is not atomic
and leaves both states mutated. -/
theorem claim_C10 {α : Type} (h : Heap α) (p c : StateId)
    (hc : (h c).Parent = none)
    (hp : (h p).Transitions.length > 0)
    (hps : (h p).StartSubState = none) :
    (addSubState h p c true).1 = some (newFsmErrorStateIsInvalid
        ("Start transition can\x27t be used on\n\t\t\t\tparent with transitions defined, " ++
         "it\x27ll lead to discarding original\n\t\t\t\ttransitions"))
    ∧ ((addSubState h p c true).2 c).Parent = some p
    ∧ ((addSubState h p c true).2 p).StartSubState = some c := by
  by_cases hpc : c = p
  · subst hpc
    simp [addSubState, heapSet, hc, hps, hp]
  · have hcp : ¬ (p = c) := fun hx => hpc hx.symm
    simp [addSubState, heapSet, hc, hps, hp, hpc, hcp]

/-- Witness for `claim_C10` on a concrete heap (parent `0` with one
transition and no start substate, fresh child `1`). -/
theorem claim_C10_witness :
    (let hW : Heap Nat := fun i =>
      if i = 0 then
        { Name := "p", Parent := none, StartSubState := none,
          Transitions := NewTransitionAlways "t" "q" none }
      else { Name := "c", Parent := none, StartSubState := none, Transitions := [] }
     (hW 1).Parent = none ∧ (hW 0).Transitions.length > 0 ∧ (hW 0).StartSubState = none ∧
      ((addSubState hW 0 1 true).1 = some (newFsmErrorStateIsInvalid
          ("Start transition can\x27t be used on\n\t\t\t\tparent with transitions defined, " ++
           "it\x27ll lead to discarding original\n\t\t\t\ttransitions"))
        ∧ ((addSubState hW 0 1 true).2 1).Parent = some 0
        ∧ ((addSubState hW 0 1 true).2 0).StartSubState = some 1)) := by
  exact ⟨rfl, by decide, rfl, claim_C10 _ 0 1 rfl (by decide) rfl⟩

/-! ## Claim C3: findCommonAncestor -/

theorem pathToRoot_getLast {α : Type} (h : Heap α) :
    ∀ (fuel : Nat) (s : StateId) (l : List StateId),
      pathToRoot h fuel s = some l → l.getLast? = some s := by
  intro fuel
  induction fuel with
  | zero =>
    intro s l hp
    unfold pathToRoot at hp
    cases hpar : (h s).Parent with
    | none => rw [hpar] at hp; simp at hp; subst hp; rfl
    | some p => rw [hpar] at hp; simp at hp
  | succ f ih =>
    intro s l hp
    unfold pathToRoot at hp
    cases hpar : (h s).Parent with
    | none => rw [hpar] at hp; simp at hp; subst hp; rfl
    | some p =>
      rw [hpar] at hp
      simp at hp
      obtain ⟨l', _, hl'⟩ := hp
      subst hl'
      simp

theorem getLast_some_ne_nil {l : List StateId} {x : StateId}
    (h : l.getLast? = some x) : l ≠ [] := by
  intro hnil
  subst hnil
  simp at h

theorem lastCommon_eq :
    ∀ (l1 l2 : List StateId) (acc : Option StateId),
      lastCommon l1 l2 acc =
        match (l1.take (commonPrefixLen l1 l2)).getLast? with
        | some x => some x
        | none => acc := by
  intro l1
  induction l1 with
  | nil => intro l2 acc; cases l2 <;> rfl
  | cons a as ih =>
    intro l2 acc
    cases l2 with
    | nil => rfl
    | cons b bs =>
      by_cases hab : a = b
      · subst hab
        have hstep : lastCommon (a :: as) (a :: bs) acc = lastCommon as bs (some a) := by
          show (if a = a then lastCommon as bs (some a) else acc) = lastCommon as bs (some a)
          rw [if_pos rfl]
        rw [hstep, ih bs (some a)]
        have htake : (a :: as).take (commonPrefixLen (a :: as) (a :: bs)) =
            a :: as.take (commonPrefixLen as bs) := by
          simp [commonPrefixLen]
        rw [htake]
        cases hg : (as.take (commonPrefixLen as bs)).getLast? with
        | none =>
          have : as.take (commonPrefixLen as bs) = [] := by
            cases hx : as.take (commonPrefixLen as bs) with
            | nil => rfl
            | cons y ys => rw [hx] at hg; simp at hg
          rw [this]
          rfl
        | some x =>
          rw [List.getLast?_cons, hg]
          rfl
      · simp [lastCommon, commonPrefixLen, hab]

theorem commonPrefixLen_self (l : List StateId) : commonPrefixLen l l = l.length := by
  induction l with
  | nil => rfl
  | cons a as ih => simp [commonPrefixLen, ih]

theorem commonPrefixLen_prefix_right :
    ∀ (l2 l1 : List StateId), l2 <+: l1 → commonPrefixLen l1 l2 = l2.length := by
  intro l2
  induction l2 with
  | nil => intro l1 _; cases l1 <;> rfl
  | cons b bs ih =>
    intro l1 hpre
    obtain ⟨t, ht⟩ := hpre
    subst ht
    simp [commonPrefixLen]
    exact ih (bs ++ t) ⟨t, rfl⟩

theorem commonPrefixLen_prefix_left :
    ∀ (l1 l2 : List StateId), l1 <+: l2 → commonPrefixLen l1 l2 = l1.length := by
  intro l1
  induction l1 with
  | nil => intro l2 _; cases l2 <;> rfl
  | cons a as ih =>
    intro l2 hpre
    obtain ⟨t, ht⟩ := hpre
    subst ht
    simp [commonPrefixLen]
    exact ih (as ++ t) ⟨t, rfl⟩

/-- For every pair of states with finite acyclic parent chains (expressed by
the parent walks returning root-first paths `lp`, `rp` within the given
fuel), `findCommonAncestor` returns the last node at which the root-to-lhs
and root-to-rhs paths agree (equal to `rhs` when `rhs`'s path is a prefix of
`lhs`'s, to `lhs` in the symmetric case, and to `lhs` when `lhs = rhs`),
returns an absent ancestor exactly when the two root-to-node paths start at
different roots, and additionally returns the signed depth difference
`depth(lhs) − depth(rhs)`. -/
theorem claim_C3 {α : Type} (h : Heap α) (fuel : Nat) (lhs rhs : StateId)
    (lp rp : List StateId)
    (hl : pathToRoot h fuel lhs = some lp) (hr : pathToRoot h fuel rhs = some rp) :
    ∃ anc : Option StateId,
      findCommonAncestor h fuel lhs rhs = some (anc, (lp.length : Int) - (rp.length : Int))
      ∧ anc = specCommonAncestor lp rp
      ∧ (anc = none ↔ lp.head? ≠ rp.head?)
      ∧ (rp <+: lp → anc = some rhs)
      ∧ (lp <+: rp → anc = some lhs)
      ∧ (lhs = rhs → anc = some lhs) := by
  have hllast := pathToRoot_getLast h fuel lhs lp hl
  have hrlast := pathToRoot_getLast h fuel rhs rp hr
  by_cases heq : lhs = rhs
  · subst heq
    have hlr : lp = rp := by rw [hl] at hr; exact Option.some.inj hr
    subst hlr
    refine ⟨some lhs, ?_, ?_, ?_, ?_, ?_, fun _ => rfl⟩
    · unfold findCommonAncestor
      rw [if_pos rfl]
      simp
    · unfold specCommonAncestor
      rw [commonPrefixLen_self, List.take_length, hllast]
    · simp
    · exact fun _ => hllast.symm.trans hrlast
    · intro _; rfl
  · have hfca : findCommonAncestor h fuel lhs rhs =
        some (lastCommon lp rp none, (lp.length : Int) - (rp.length : Int)) := by
      unfold findCommonAncestor
      rw [if_neg heq, hl, hr]
    have hanc : lastCommon lp rp none = specCommonAncestor lp rp := by
      rw [lastCommon_eq lp rp none]
      unfold specCommonAncestor
      cases (lp.take (commonPrefixLen lp rp)).getLast? <;> rfl
    refine ⟨lastCommon lp rp none, hfca, hanc, ?_, ?_, ?_, fun hcontra => absurd hcontra heq⟩
    · rw [hanc]
      cases lp with
      | nil => exact absurd rfl (getLast_some_ne_nil hllast)
      | cons a as =>
        cases rp with
        | nil => exact absurd rfl (getLast_some_ne_nil hrlast)
        | cons b bs =>
          by_cases hab : a = b
          · subst hab
            constructor
            · intro hnone
              exfalso
              unfold specCommonAncestor at hnone
              have hk : commonPrefixLen (a :: as) (a :: bs) =
                  commonPrefixLen as bs + 1 := by simp [commonPrefixLen]
              rw [hk] at hnone
              simp at hnone
            · intro hheads
              exact absurd rfl hheads
          · constructor
            · intro _
              simp [hab]
            · intro _
              unfold specCommonAncestor
              have hk : commonPrefixLen (a :: as) (b :: bs) = 0 := by
                simp [commonPrefixLen, hab]
              rw [hk]
              rfl
    · intro hpre
      rw [hanc]
      unfold specCommonAncestor
      rw [commonPrefixLen_prefix_right rp lp hpre,
        (List.prefix_iff_eq_take.mp hpre).symm, hrlast]
    · intro hpre
      rw [hanc]
      unfold specCommonAncestor
      rw [commonPrefixLen_prefix_left lp rp hpre, List.take_length, hllast]

/-- Witness for `claim_C3` on a concrete three-state tree
(`0` the root, `1` and `2` its children). -/
theorem claim_C3_witness :
    (let hW : Heap Nat := fun i =>
      if i = 0 then { Name := "g", Parent := none, StartSubState := none, Transitions := [] }
      else if i = 1 then
        { Name := "a", Parent := some 0, StartSubState := none, Transitions := [] }
      else { Name := "b", Parent := some 0, StartSubState := none, Transitions := [] }
     pathToRoot hW 5 1 = some [0, 1] ∧ pathToRoot hW 5 2 = some [0, 2] ∧
      (∃ anc : Option StateId,
        findCommonAncestor hW 5 1 2 =
          some (anc, (([0, 1] : List StateId).length : Int) -
            (([0, 2] : List StateId).length : Int))
        ∧ anc = specCommonAncestor [0, 1] [0, 2]
        ∧ (anc = none ↔ ([0, 1] : List StateId).head? ≠ ([0, 2] : List StateId).head?)
        ∧ (([0, 2] : List StateId) <+: [0, 1] → anc = some 2)
        ∧ (([0, 1] : List StateId) <+: [0, 2] → anc = some 1)
        ∧ ((1 : StateId) = 2 → anc = some 1))) := by
  exact ⟨rfl, rfl, claim_C3 _ 5 1 2 [0, 1] [0, 2] rfl rfl⟩

/-! ## Status lemmas for Advance -/

theorem fatal_status {α : Type} (M : Fsm α) (e : FsmError) (hf : M.fatal = some e) :
    M.FatalB = true ∧ M.CompletedB = false ∧ M.IdleB = false := by
  have hF : M.FatalB = true := by simp [Fsm.FatalB, hf]
  have hC : M.CompletedB = false := by simp [Fsm.CompletedB, hF]
  have hI : M.IdleB = false := by simp [Fsm.IdleB, hF]
  exact ⟨hF, hC, hI⟩

theorem running_status {α : Type} (M : Fsm α) (hrun : M.RunningB = true) :
    M.FatalB = false ∧ M.CompletedB = false ∧ M.IdleB = false := by
  unfold Fsm.RunningB at hrun
  simp only [Bool.and_eq_true, Bool.not_eq_true'] at hrun
  exact ⟨hrun.1.2, hrun.2, by simp [Fsm.IdleB, Fsm.RunningB, hrun.1.1, hrun.1.2, hrun.2]⟩

theorem advance_when_fatal {α : Type} (fuel : Nat) (M : Fsm α) (e : FsmError)
    (hpeek : M.stack.peek.isSome = true) (hf : M.fatal = some e) :
    Advance fuel M = some (none, some e, M) := by
  obtain ⟨current, hc⟩ := Option.isSome_iff_exists.mp hpeek
  obtain ⟨hF, hC, hI⟩ := fatal_status M e hf
  unfold Advance
  rw [hc]
  simp [hI, hC, hF, hf]

theorem goFatal_of_fatal {α : Type} (M : Fsm α) (e c : FsmError)
    (hf : M.fatal = some e) : M.goFatal c = M := by
  simp [Fsm.goFatal, hf]

theorem advance_when_running {α : Type} (fuel : Nat) (M : Fsm α) (current : StateContext α)
    (hpeek : M.stack.peek = some current) (hrun : M.RunningB = true) :
    Advance fuel M = advanceStep fuel M current ((M.fstr.stateOf current.state).Name) := by
  obtain ⟨hF, hC, hI⟩ := running_status M hrun
  unfold Advance
  rw [hpeek]
  simp [hI, hC, hF]

/-! ## Claim C5: Fatal is absorbing -/

/-- The Fatal state is absorbing: (i) once an `Fsm` has a stored fatal error,
every subsequent `Advance` call returns that same stored fatal error with the
machine unchanged (same stack, history and fatal slot, no guard consulted);
(ii) `goFatal` never overwrites an already stored fatal error; (iii) a guard
that reports an error drives the machine to Fatal with a callback-failed
cause, and a subsequent `Advance` re-reports exactly that stored error. -/
theorem claim_C5 {α : Type} :
    (∀ (fuel : Nat) (M : Fsm α) (e : FsmError),
        M.stack.peek.isSome = true → M.fatal = some e →
        Advance fuel M = some (none, some e, M))
    ∧ (∀ (M : Fsm α) (e c : FsmError),
        M.fatal = some e → (M.goFatal c).fatal = some e)
    ∧ (∀ (fuel fuel2 : Nat) (M : Fsm α) (current : StateContext α) (msg : String),
        M.stack.peek = some current → M.RunningB = true →
        scanTransitions M.stack (M.fstr.stateOf current.state).Transitions none 0 =
          some (.error msg) →
        Advance fuel M = some (none, some (newFsmErrorCallbackFailed "guard" msg),
          M.goFatal (newFsmErrorCallbackFailed "guard" msg))
        ∧ (M.goFatal (newFsmErrorCallbackFailed "guard" msg)).fatal =
            some (newFsmErrorInFatalState (newFsmErrorCallbackFailed "guard" msg)
              (stackDumpStr M.stack) (historyDump M.history))
        ∧ Advance fuel2 (M.goFatal (newFsmErrorCallbackFailed "guard" msg)) =
            some (none,
              some (newFsmErrorInFatalState (newFsmErrorCallbackFailed "guard" msg)
                (stackDumpStr M.stack) (historyDump M.history)),
              M.goFatal (newFsmErrorCallbackFailed "guard" msg))) := by
  refine ⟨advance_when_fatal, ?_, ?_⟩
  · intro M e c hf
    rw [goFatal_of_fatal M e c hf, hf]
  · intro fuel fuel2 M current msg hpeek hrun hscan
    obtain ⟨hF, _, _⟩ := running_status M hrun
    have hfnone : M.fatal = none := by
      unfold Fsm.FatalB at hF
      exact Option.not_isSome_iff_eq_none.mp (by rw [hF]; exact Bool.false_ne_true)
    have hgo : M.goFatal (newFsmErrorCallbackFailed "guard" msg) =
        { M with fatal := some (newFsmErrorInFatalState
            (newFsmErrorCallbackFailed "guard" msg) (stackDumpStr M.stack)
            (historyDump M.history)) } := by
      simp [Fsm.goFatal, hfnone]
    refine ⟨?_, ?_, ?_⟩
    · rw [advance_when_running fuel M current hpeek hrun]
      unfold advanceStep
      rw [hscan]
    · rw [hgo]
    · rw [hgo]
      exact advance_when_fatal fuel2 _ _ (by simp [hpeek]) rfl

/-- Concrete world for the C5 witness: a running machine whose current state
owns a single transition with an erroring guard. -/
def exHeapC5 : Heap Nat := fun i =>
  if i = 0 then
    { Name := "global", Parent := none, StartSubState := some 1,
      Transitions := NewTransitionAlways "Always global->a" "a" none }
  else
    { Name := "a", Parent := some 0, StartSubState := none,
      Transitions := [{ Name := "t", ToState := "a",
                        Guard := some (fun _ => (false, some "boom")), Action := none }] }

def exFstrC5 : Structure Nat := ⟨exHeapC5, [("global", 0), ("a", 1)], 0⟩

def exMC5 : Fsm Nat :=
  { fstr := exFstrC5
    stack := ⟨[newStateContext 1, newStateContext 0]⟩
    history := []
    fatal := none }

/-- Witness for `claim_C5` on the concrete running machine `exMC5`. -/
theorem claim_C5_witness :
    exMC5.stack.peek = some (newStateContext 1)
    ∧ exMC5.RunningB = true
    ∧ scanTransitions exMC5.stack
        (exMC5.fstr.stateOf (newStateContext (α := Nat) 1).state).Transitions none 0 =
        some (.error "boom")
    ∧ (Advance 3 exMC5 = some (none, some (newFsmErrorCallbackFailed "guard" "boom"),
          exMC5.goFatal (newFsmErrorCallbackFailed "guard" "boom"))
        ∧ (exMC5.goFatal (newFsmErrorCallbackFailed "guard" "boom")).fatal =
            some (newFsmErrorInFatalState (newFsmErrorCallbackFailed "guard" "boom")
              (stackDumpStr exMC5.stack) (historyDump exMC5.history))
        ∧ Advance 4 (exMC5.goFatal (newFsmErrorCallbackFailed "guard" "boom")) =
            some (none,
              some (newFsmErrorInFatalState (newFsmErrorCallbackFailed "guard" "boom")
                (stackDumpStr exMC5.stack) (historyDump exMC5.history)),
              exMC5.goFatal (newFsmErrorCallbackFailed "guard" "boom"))) := by
  refine ⟨rfl, by decide, rfl, claim_C5.2.2 3 4 exMC5 (newStateContext 1) "boom" rfl (by decide) rfl⟩

/-! ## Claim C1: guard-evaluation phase of Advance -/

/-- Whether a transition's guard reports "open" on the given stack (used to
state the open-count property; a nil guard cannot report open). -/
def guardOpens {α : Type} (st : ContextStack α) (t : Transition α) : Bool :=
  match t.Guard with
  | some g => (g st).1
  | none => false

theorem goFatal_fatalB {α : Type} (M : Fsm α) (e : FsmError) :
    (M.goFatal e).FatalB = true := by
  unfold Fsm.goFatal Fsm.FatalB
  cases h : M.fatal.isSome with
  | true => simp [h]
  | false => simp [h]

theorem scanTransitions_ok_count {α : Type} (st : ContextStack α) :
    ∀ (Ts : List (Transition α)) (acc : Option (Transition α)) (c0 : Nat)
      (res : Option (Transition α)) (cnt : Nat),
      scanTransitions st Ts acc c0 = some (.ok (res, cnt)) →
      cnt = c0 + Ts.countP (fun t => guardOpens st t) := by
  intro Ts
  induction Ts with
  | nil =>
    intro acc c0 res cnt h
    unfold scanTransitions at h
    simp at h
    simp [h.2]
  | cons t rest ih =>
    intro acc c0 res cnt h
    unfold scanTransitions at h
    split at h
    · exact absurd h (by simp)
    · rename_i g hg
      split at h
      · exact absurd h (by simp)
      · have hopens : guardOpens st t = (g st).1 := by unfold guardOpens; rw [hg]
        by_cases hb : (g st).1 = true
        · rw [hb] at h
          simp only [if_true] at h
          have := ih (some t) (c0 + 1) res cnt h
          rw [List.countP_cons, hopens, hb]
          simp only [if_true]
          omega
        · rw [Bool.not_eq_true] at hb
          rw [hb] at h
          simp only [Bool.false_eq_true, if_false] at h
          have := ih acc c0 res cnt h
          rw [List.countP_cons, hopens, hb]
          simp only [Bool.false_eq_true, if_false]
          omega

theorem scanTransitions_ok_mem {α : Type} (st : ContextStack α) :
    ∀ (Ts : List (Transition α)) (acc : Option (Transition α)) (c0 : Nat)
      (res : Option (Transition α)) (cnt : Nat),
      scanTransitions st Ts acc c0 = some (.ok (res, cnt)) →
      (res = acc ∧ cnt = c0) ∨ (∃ t ∈ Ts, guardOpens st t = true ∧ res = some t) := by
  intro Ts
  induction Ts with
  | nil =>
    intro acc c0 res cnt h
    unfold scanTransitions at h
    simp at h
    exact Or.inl ⟨h.1.symm, h.2.symm⟩
  | cons t rest ih =>
    intro acc c0 res cnt h
    unfold scanTransitions at h
    split at h
    · exact absurd h (by simp)
    · rename_i g hg
      split at h
      · exact absurd h (by simp)
      · have hopens : guardOpens st t = (g st).1 := by unfold guardOpens; rw [hg]
        by_cases hb : (g st).1 = true
        · rw [hb] at h
          simp only [if_true] at h
          rcases ih (some t) (c0 + 1) res cnt h with ⟨hres, _⟩ | ⟨t', ht', hopen', hres'⟩
          · exact Or.inr ⟨t, List.mem_cons_self t rest, by rw [hopens, hb], hres⟩
          · exact Or.inr ⟨t', List.mem_cons_of_mem t ht', hopen', hres'⟩
        · rw [Bool.not_eq_true] at hb
          rw [hb] at h
          simp only [Bool.false_eq_true, if_false] at h
          rcases ih acc c0 res cnt h with hl | ⟨t', ht', hopen', hres'⟩
          · exact Or.inl hl
          · exact Or.inr ⟨t', List.mem_cons_of_mem t ht', hopen', hres'⟩

/-- For every `Fsm` in Running status with current head state's transition
list `Ts`, one `Advance` call evaluates the guards of `Ts` in order: a guard
error yields a callback-failed error and a Fatal machine; an error-free scan
counts the open guards of *every* transition in `Ts`; zero open guards yields
the "all transitions are closed" runtime error and a Fatal machine; two or
more open guards yields the "more than 1 transitions are opened" runtime
error and a Fatal machine; only with exactly one open guard does the step
proceed, and it resolves the destination of precisely that open transition. -/
theorem claim_C1 {α : Type} (fuel : Nat) (M : Fsm α) (current : StateContext α)
    (hpeek : M.stack.peek = some current) (hrun : M.RunningB = true) :
    (∀ msg, scanTransitions M.stack (M.fstr.stateOf current.state).Transitions none 0 =
        some (.error msg) →
      Advance fuel M = some (none, some (newFsmErrorCallbackFailed "guard" msg),
        M.goFatal (newFsmErrorCallbackFailed "guard" msg))
      ∧ (M.goFatal (newFsmErrorCallbackFailed "guard" msg)).FatalB = true)
    ∧ (∀ res cnt,
        scanTransitions M.stack (M.fstr.stateOf current.state).Transitions none 0 =
          some (.ok (res, cnt)) →
        cnt = (M.fstr.stateOf current.state).Transitions.countP
          (fun t => guardOpens M.stack t))
    ∧ (∀ res,
        scanTransitions M.stack (M.fstr.stateOf current.state).Transitions none 0 =
          some (.ok (res, 0)) →
        Advance fuel M = some (none, some (newFsmErrorRuntime "all transitions are closed"),
          M.goFatal (newFsmErrorRuntime "all transitions are closed"))
        ∧ (M.goFatal (newFsmErrorRuntime "all transitions are closed")).FatalB = true)
    ∧ (∀ res cnt,
        scanTransitions M.stack (M.fstr.stateOf current.state).Transitions none 0 =
          some (.ok (res, cnt + 2)) →
        Advance fuel M = some (none,
          some (newFsmErrorRuntime "more than 1 transitions are opened"),
          M.goFatal (newFsmErrorRuntime "more than 1 transitions are opened"))
        ∧ (M.goFatal (newFsmErrorRuntime "more than 1 transitions are opened")).FatalB = true)
    ∧ (∀ tr,
        scanTransitions M.stack (M.fstr.stateOf current.state).Transitions none 0 =
          some (.ok (some tr, 1)) →
        tr ∈ (M.fstr.stateOf current.state).Transitions ∧ guardOpens M.stack tr = true
        ∧ (∀ nextId, List.lookup tr.ToState M.fstr.states = some nextId →
            Advance fuel M = advanceResolve fuel M current.state
              ((M.fstr.stateOf current.state).Name) tr nextId)) := by
  have hArun := advance_when_running fuel M current hpeek hrun
  refine ⟨?_, ?_, ?_, ?_, ?_⟩
  · intro msg hscan
    refine ⟨?_, goFatal_fatalB M _⟩
    rw [hArun]
    unfold advanceStep
    rw [hscan]
  · intro res cnt hscan
    simpa using scanTransitions_ok_count M.stack _ none 0 res cnt hscan
  · intro res hscan
    refine ⟨?_, goFatal_fatalB M _⟩
    rw [hArun]
    unfold advanceStep
    rw [hscan]
  · intro res cnt hscan
    refine ⟨?_, goFatal_fatalB M _⟩
    rw [hArun]
    unfold advanceStep
    rw [hscan]
  · intro tr hscan
    have hmem := scanTransitions_ok_mem M.stack _ none 0 (some tr) 1 hscan
    rcases hmem with ⟨hres, _⟩ | ⟨t', ht', hopen', hres'⟩
    · exact absurd hres (by simp)
    · have htr : t' = tr := (Option.some.inj hres').symm
      subst htr
      refine ⟨ht', hopen', ?_⟩
      intro nextId hlookup
      rw [hArun]
      unfold advanceStep
      rw [hscan]
      simp only
      rw [hlookup]

/-- Closed transition for the C1 witness world. -/
def exTrClosed : Transition Nat :=
  { Name := "t1", ToState := "b", Guard := some (fun _ => (false, none)), Action := none }

/-- Open transition for the C1 witness world. -/
def exTrOpen : Transition Nat :=
  { Name := "t2", ToState := "b", Guard := some (fun _ => (true, none)), Action := none }

def exHeapC1 : Heap Nat := fun i =>
  if i = 0 then
    { Name := "global", Parent := none, StartSubState := some 1,
      Transitions := NewTransitionAlways "Always global->a" "a" none }
  else if i = 1 then
    { Name := "a", Parent := some 0, StartSubState := none,
      Transitions := [exTrClosed, exTrOpen] }
  else
    { Name := "b", Parent := some 0, StartSubState := none, Transitions := [] }

def exFstrC1 : Structure Nat := ⟨exHeapC1, [("global", 0), ("a", 1), ("b", 2)], 0⟩

def exMC1 : Fsm Nat :=
  { fstr := exFstrC1
    stack := ⟨[newStateContext 1, newStateContext 0]⟩
    history := []
    fatal := none }

/-- Witness for `claim_C1` on a concrete running machine with one closed and
one open transition: the open count covers both guards and the step resolves
the open transition's destination. -/
theorem claim_C1_witness :
    exMC1.stack.peek = some (newStateContext 1)
    ∧ exMC1.RunningB = true
    ∧ scanTransitions exMC1.stack
        (exMC1.fstr.stateOf (newStateContext (α := Nat) 1).state).Transitions none 0 =
        some (.ok (some exTrOpen, 1))
    ∧ 1 = (exMC1.fstr.stateOf (newStateContext (α := Nat) 1).state).Transitions.countP
        (fun t => guardOpens exMC1.stack t)
    ∧ List.lookup exTrOpen.ToState exMC1.fstr.states = some 2
    ∧ Advance 3 exMC1 = advanceResolve 3 exMC1 (newStateContext (α := Nat) 1).state
        ((exMC1.fstr.stateOf (newStateContext (α := Nat) 1).state).Name) exTrOpen 2 := by
  refine ⟨rfl, by decide, rfl, ?_, rfl, ?_⟩
  · exact (claim_C1 3 exMC1 (newStateContext 1) rfl (by decide)).2.1 (some exTrOpen) 1 rfl
  · exact ((claim_C1 3 exMC1 (newStateContext 1) rfl (by decide)).2.2.2.2 exTrOpen rfl).2.2 2 rfl

/-! ## Claim C2: scope popping and pushing in Advance -/

theorem push_success {α : Type} (st : ContextStack α) (s : StateId)
    (hhead : ∀ g, st.stack.head? = some g → g.state ≠ s) :
    st.push (some s) = (some (newStateContext s), ⟨newStateContext s :: st.stack⟩) := by
  unfold ContextStack.push
  cases h : st.stack with
  | nil => simp
  | cons f rest =>
    have hfs : f.state ≠ s := hhead f (by rw [h]; rfl)
    simp [hfs]

theorem goFatal_stack {α : Type} (M : Fsm α) (e : FsmError) :
    (M.goFatal e).stack = M.stack := by
  unfold Fsm.goFatal
  cases h : M.fatal.isSome <;> simp [h]

theorem popLoop_drop {α : Type} :
    ∀ (n : Nat) (st : ContextStack α), n < st.depth →
      popLoop n st = ⟨st.stack.drop n⟩ := by
  intro n
  induction n with
  | zero => intro st _; rfl
  | succ m ih =>
    intro st hlt
    unfold popLoop
    have hd : ¬ (st.depth ≤ FsmAutoStatesCount) := by
      unfold FsmAutoStatesCount
      omega
    rw [if_neg hd]
    cases hs : st.stack with
    | nil =>
      exfalso
      unfold ContextStack.depth at hlt
      rw [hs] at hlt
      simp at hlt
    | cons f rest =>
      have hpop : (st.pop).2 = ⟨rest⟩ := by unfold ContextStack.pop; rw [hs]
      rw [hpop]
      have hm : m < (ContextStack.mk (α := α) rest).depth := by
        unfold ContextStack.depth at hlt ⊢
        rw [hs] at hlt
        simpa using Nat.lt_of_succ_lt_succ hlt
      rw [ih ⟨rest⟩ hm]
      rfl

/-- The push/log/action tail always yields a step and a machine whose frame
states are the destination pushed on the (already popped) stack, provided the
head of that stack is not already the destination and the transition's
action (if any) respects its `ContextOperator` capability. -/
theorem advancePush_frames {α : Type} (M : Fsm α) (currentName : String)
    (tr : Transition α) (nextId : StateId) (stack1 : ContextStack α)
    (hact : ∀ act, tr.Action = some act → preservesFrames act)
    (hhead : ∀ g, stack1.stack.head? = some g → g.state ≠ nextId) :
    ∃ step e M', advancePush M currentName tr nextId stack1 = some (some step, e, M') ∧
      framesOf M'.stack = nextId :: framesOf stack1 := by
  have hpush := push_success stack1 nextId hhead
  unfold advancePush
  rw [hpush]
  simp only
  cases hao : tr.Action with
  | none =>
    refine ⟨_, none, _, rfl, ?_⟩
    simp [framesOf, newStateContext]
  | some act =>
    have hpres := hact act hao
    have hframes : framesOf (act (⟨newStateContext nextId :: stack1.stack⟩ : ContextStack α)).1
        = nextId :: framesOf stack1 := by
      have h2 := hpres (⟨newStateContext nextId :: stack1.stack⟩ : ContextStack α)
      rw [h2]
      simp [framesOf, newStateContext]
    cases hres : (act (⟨newStateContext nextId :: stack1.stack⟩ : ContextStack α)).2 with
    | none =>
      simp only [hres]
      exact ⟨_, none, _, rfl, by simpa using hframes⟩
    | some msg =>
      simp only [hres]
      refine ⟨_, some (newFsmErrorCallbackFailed "entry action" msg), _, rfl, ?_⟩
      rw [goFatal_stack]
      simpa using hframes

/-- For every Advance step from a Running machine whose guard scan produced
the single open transition `tr` with destination `nextId` (and whose action,
if any, respects its context-only capability): if current and destination
have no common ancestor the machine goes Fatal with a runtime error; if the
depth difference is below −1 ("descend more than one level") the machine goes
Fatal with a runtime error; if the depth difference is exactly −1 no scope is
popped and exactly one new scope is pushed; if the depth difference `d ≥ 0`
(and the stack holds more than `d + 1` scopes above the auto-state floor,
with the uncovered scope not already the destination) exactly `d + 1` scopes
are popped and then the destination's single new scope is pushed. -/
theorem claim_C2 {α : Type} (fuel : Nat) (M : Fsm α) (current : StateContext α)
    (tr : Transition α) (nextId : StateId)
    (hpeek : M.stack.peek = some current) (hrun : M.RunningB = true)
    (hscan : scanTransitions M.stack (M.fstr.stateOf current.state).Transitions none 0 =
      some (.ok (some tr, 1)))
    (hlookup : List.lookup tr.ToState M.fstr.states = some nextId)
    (hact : ∀ act, tr.Action = some act → preservesFrames act) :
    (∀ d, findCommonAncestor M.fstr.stateOf fuel current.state nextId = some (none, d) →
      Advance fuel M = some (none,
        some (newFsmErrorRuntime ("\"" ++ (M.fstr.stateOf current.state).Name ++
          "\" and \"" ++ (M.fstr.stateOf nextId).Name ++ "\" don\x27t have a common parent")),
        M.goFatal (newFsmErrorRuntime ("\"" ++ (M.fstr.stateOf current.state).Name ++
          "\" and \"" ++ (M.fstr.stateOf nextId).Name ++ "\" don\x27t have a common parent")))
      ∧ (M.goFatal (newFsmErrorRuntime ("\"" ++ (M.fstr.stateOf current.state).Name ++
          "\" and \"" ++ (M.fstr.stateOf nextId).Name ++
          "\" don\x27t have a common parent"))).FatalB = true)
    ∧ (∀ a d, findCommonAncestor M.fstr.stateOf fuel current.state nextId = some (some a, d) →
        d < -1 →
        Advance fuel M = some (none,
          some (newFsmErrorRuntime "Trying to go deeper than 1 state at a time"),
          M.goFatal (newFsmErrorRuntime "Trying to go deeper than 1 state at a time"))
        ∧ (M.goFatal (newFsmErrorRuntime
            "Trying to go deeper than 1 state at a time")).FatalB = true)
    ∧ (∀ a, findCommonAncestor M.fstr.stateOf fuel current.state nextId = some (some a, -1) →
        ∃ step e M', Advance fuel M = some (some step, e, M')
          ∧ framesOf M'.stack = nextId :: framesOf M.stack)
    ∧ (∀ a d, findCommonAncestor M.fstr.stateOf fuel current.state nextId = some (some a, d) →
        0 ≤ d → d.toNat + 1 < M.stack.depth →
        (∀ g, (M.stack.stack.drop (d.toNat + 1)).head? = some g → g.state ≠ nextId) →
        ∃ step e M', Advance fuel M = some (some step, e, M')
          ∧ framesOf M'.stack = nextId :: (framesOf M.stack).drop (d.toNat + 1)) := by
  have hAR : Advance fuel M = advanceResolve fuel M current.state
      ((M.fstr.stateOf current.state).Name) tr nextId := by
    rw [advance_when_running fuel M current hpeek hrun]
    unfold advanceStep
    rw [hscan]
    simp only
    rw [hlookup]
  refine ⟨?_, ?_, ?_, ?_⟩
  · intro d hfca
    refine ⟨?_, goFatal_fatalB M _⟩
    rw [hAR]
    unfold advanceResolve
    rw [hfca]
  · intro a d hfca hd
    refine ⟨?_, goFatal_fatalB M _⟩
    rw [hAR]
    unfold advanceResolve
    rw [hfca]
    have hne : d ≠ -1 := by omega
    simp only [hne, if_false, hd, if_true]
  · intro a hfca
    have hne : current.state ≠ nextId := by
      intro he
      unfold findCommonAncestor at hfca
      rw [if_pos he] at hfca
      simp at hfca
    rw [hAR]
    unfold advanceResolve
    rw [hfca]
    simp only [if_pos rfl]
    have hhead : ∀ g, M.stack.stack.head? = some g → g.state ≠ nextId := by
      intro g hg
      unfold ContextStack.peek at hpeek
      rw [hpeek] at hg
      exact (Option.some.inj hg) ▸ hne
    exact advancePush_frames M _ tr nextId M.stack hact hhead
  · intro a d hfca hd0 hdep hheads
    rw [hAR]
    unfold advanceResolve
    rw [hfca]
    have hne1 : d ≠ -1 := by omega
    have hne2 : ¬ (d < -1) := by omega
    simp only [hne1, if_false, hne2]
    have hpl := popLoop_drop (d.toNat + 1) M.stack hdep
    rw [hpl]
    have := advancePush_frames M ((M.fstr.stateOf current.state).Name) tr nextId
      ⟨M.stack.stack.drop (d.toNat + 1)⟩ hact (by simpa using hheads)
    obtain ⟨step, e, M', hAP, hfr⟩ := this
    refine ⟨step, e, M', hAP, ?_⟩
    rw [hfr]
    simp [framesOf, List.map_drop]

/-- Witness for `claim_C2` on `exMC1`: a sibling-to-sibling step (depth
difference 0) pops exactly one scope and pushes the destination scope. -/
theorem claim_C2_witness :
    exMC1.stack.peek = some (newStateContext 1)
    ∧ exMC1.RunningB = true
    ∧ scanTransitions exMC1.stack
        (exMC1.fstr.stateOf (newStateContext (α := Nat) 1).state).Transitions none 0 =
        some (.ok (some exTrOpen, 1))
    ∧ List.lookup exTrOpen.ToState exMC1.fstr.states = some 2
    ∧ findCommonAncestor exMC1.fstr.stateOf 5 (newStateContext (α := Nat) 1).state 2 =
        some (some 0, 0)
    ∧ (∃ step e M', Advance 5 exMC1 = some (some step, e, M')
        ∧ framesOf M'.stack = 2 :: (framesOf exMC1.stack).drop ((0 : Int).toNat + 1)) := by
  refine ⟨rfl, by decide, rfl, rfl, rfl, ?_⟩
  have hact : ∀ act, exTrOpen.Action = some act → preservesFrames act := by
    intro act hc
    simp [exTrOpen] at hc
  have h := (claim_C2 5 exMC1 (newStateContext 1) exTrOpen 2 rfl (by decide) rfl rfl
    hact).2.2.2 0 0 rfl (by omega) (by decide)
    (by
      intro g hg
      rw [show (exMC1.stack.stack.drop ((0 : Int).toNat + 1)).head? =
        some (newStateContext 0) from rfl] at hg
      exact (Option.some.inj hg) ▸ (by decide : (newStateContext (α := Nat) 0).state ≠ 2))
  exact h

/-! ## Claim C9: stack bottom invariant -/

/-- The state of the outermost (bottom) frame. -/
def lastStateOf {α : Type} (st : ContextStack α) : Option StateId :=
  (framesOf st).getLast?

theorem lastStateOf_eq {α : Type} (st : ContextStack α) :
    lastStateOf st = (st.stack.getLast?).map (fun f => f.state) := by
  unfold lastStateOf framesOf
  exact List.getLast?_map _ _

theorem framesOf_ne_nil_iff {α : Type} (st : ContextStack α) :
    framesOf st ≠ [] ↔ st.stack ≠ [] := by
  unfold framesOf
  constructor
  · intro h hc; exact h (by rw [hc]; rfl)
  · intro h hc; exact h (List.map_eq_nil_iff.mp hc)

theorem cons_getLast?_of_ne_nil {β : Type} (a : β) (l : List β) (h : l ≠ []) :
    (a :: l).getLast? = l.getLast? := by
  cases l with
  | nil => exact absurd rfl h
  | cons b t => exact List.getLast?_cons_cons

theorem goFatal_fstr {α : Type} (M : Fsm α) (e : FsmError) :
    (M.goFatal e).fstr = M.fstr := by
  unfold Fsm.goFatal
  cases h : M.fatal.isSome <;> simp [h]

theorem popLoop_keeps {α : Type} :
    ∀ (n : Nat) (st : ContextStack α), st.stack ≠ [] →
      (popLoop n st).stack ≠ [] ∧ lastStateOf (popLoop n st) = lastStateOf st := by
  intro n
  induction n with
  | zero => intro st hne; exact ⟨hne, rfl⟩
  | succ m ih =>
    intro st hne
    unfold popLoop
    by_cases hd : st.depth ≤ FsmAutoStatesCount
    · rw [if_pos hd]; exact ⟨hne, rfl⟩
    · rw [if_neg hd]
      unfold ContextStack.depth FsmAutoStatesCount at hd
      cases hs : st.stack with
      | nil => exact absurd hs hne
      | cons f rest =>
        have hrest : rest ≠ [] := by
          rw [hs] at hd
          simp at hd
          intro hc
          rw [hc] at hd
          simp at hd
        have hpop : (st.pop).2 = ⟨rest⟩ := by unfold ContextStack.pop; rw [hs]
        rw [hpop]
        obtain ⟨h1, h2⟩ := ih ⟨rest⟩ hrest
        refine ⟨h1, h2.trans ?_⟩
        unfold lastStateOf framesOf
        rw [hs]
        simp only [List.map_cons]
        exact (cons_getLast?_of_ne_nil _ _ (by
          intro hc
          exact hrest (List.map_eq_nil_iff.mp hc))).symm

theorem lastStateOf_cons {α : Type} (f : StateContext α) (stack1 : ContextStack α)
    (hne : stack1.stack ≠ []) :
    lastStateOf ⟨f :: stack1.stack⟩ = lastStateOf stack1 := by
  unfold lastStateOf framesOf
  simp only [List.map_cons]
  exact cons_getLast?_of_ne_nil _ _ (by
    intro hc
    exact hne (List.map_eq_nil_iff.mp hc))

theorem advancePush_keeps {α : Type} (M : Fsm α) (currentName : String)
    (tr : Transition α) (nextId : StateId) (stack1 : ContextStack α)
    (hne : stack1.stack ≠ [])
    (hactTr : ∀ act, tr.Action = some act → preservesFrames act)
    {s : Option HistoryItem} {e : Option FsmError} {M' : Fsm α}
    (hA : advancePush M currentName tr nextId stack1 = some (s, e, M')) :
    M'.fstr = M.fstr ∧ M'.stack.stack ≠ [] ∧ lastStateOf M'.stack = lastStateOf stack1 := by
  unfold advancePush at hA
  cases hs : stack1.stack with
  | nil => exact absurd hs hne
  | cons f rest =>
    by_cases hfs : f.state = nextId
    · -- push is a no-op: runtime error, machine goes fatal with the stack untouched
      have hpush : stack1.push (some nextId) = (none, stack1) := by
        unfold ContextStack.push
        rw [hs]
        simp [hfs]
      rw [hpush] at hA
      simp only at hA
      have h := Option.some.inj hA
      injection h with h1 h23
      injection h23 with h2 h3
      subst h3
      rw [goFatal_fstr, goFatal_stack]
      exact ⟨rfl, hne, rfl⟩
    · have hpush := push_success stack1 nextId (by
        intro g hg
        rw [hs] at hg
        exact (Option.some.inj hg) ▸ hfs)
      rw [hpush] at hA
      simp only at hA
      cases hao : tr.Action with
      | none =>
        rw [hao] at hA
        simp only at hA
        have h := Option.some.inj hA
        injection h with h1 h23
        injection h23 with h2 h3
        subst h3
        exact ⟨rfl, by simp, lastStateOf_cons _ stack1 hne⟩
      | some act =>
        rw [hao] at hA
        simp only at hA
        have hpres := hactTr act hao
        have hframes : framesOf (act (⟨newStateContext nextId :: stack1.stack⟩ :
            ContextStack α)).1 = nextId :: framesOf stack1 := by
          have h2 := hpres (⟨newStateContext nextId :: stack1.stack⟩ : ContextStack α)
          rw [h2]
          simp [framesOf, newStateContext]
        have hn2 : (act (⟨newStateContext nextId :: stack1.stack⟩ : ContextStack α)).1.stack
            ≠ [] := by
          rw [← framesOf_ne_nil_iff, hframes]
          simp
        have hl2 : lastStateOf (act (⟨newStateContext nextId :: stack1.stack⟩ :
            ContextStack α)).1 = lastStateOf stack1 := by
          unfold lastStateOf
          rw [hframes]
          exact cons_getLast?_of_ne_nil _ _ ((framesOf_ne_nil_iff stack1).mpr hne)
        cases hres : (act (⟨newStateContext nextId :: stack1.stack⟩ : ContextStack α)).2 with
        | none =>
          rw [hres] at hA
          simp only at hA
          have h := Option.some.inj hA
          injection h with h1 h23
          injection h23 with h2 h3
          subst h3
          exact ⟨rfl, hn2, hl2⟩
        | some msg =>
          rw [hres] at hA
          simp only at hA
          have h := Option.some.inj hA
          injection h with h1 h23
          injection h23 with h2 h3
          subst h3
          rw [goFatal_fstr, goFatal_stack]
          exact ⟨rfl, hn2, hl2⟩

theorem advanceResolve_keeps {α : Type} (fuel : Nat) (M : Fsm α) (currentState : StateId)
    (currentName : String) (tr : Transition α) (nextId : StateId)
    (hne : M.stack.stack ≠ [])
    (hactTr : ∀ act, tr.Action = some act → preservesFrames act)
    {s : Option HistoryItem} {e : Option FsmError} {M' : Fsm α}
    (hA : advanceResolve fuel M currentState currentName tr nextId = some (s, e, M')) :
    M'.fstr = M.fstr ∧ M'.stack.stack ≠ [] ∧ lastStateOf M'.stack = lastStateOf M.stack := by
  unfold advanceResolve at hA
  cases hfca : findCommonAncestor M.fstr.stateOf fuel currentState nextId with
  | none => rw [hfca] at hA; exact absurd hA (by simp)
  | some pr =>
    obtain ⟨anc, d⟩ := pr
    rw [hfca] at hA
    cases anc with
    | none =>
      simp only at hA
      have h := Option.some.inj hA
      injection h with h1 h23
      injection h23 with h2 h3
      subst h3
      rw [goFatal_fstr, goFatal_stack]
      exact ⟨rfl, hne, rfl⟩
    | some a =>
      simp only at hA
      by_cases hd1 : d = -1
      · rw [if_pos hd1] at hA
        exact advancePush_keeps M currentName tr nextId M.stack hne hactTr hA
      · rw [if_neg hd1] at hA
        by_cases hd2 : d < -1
        · rw [if_pos hd2] at hA
          have h := Option.some.inj hA
          injection h with h1 h23
          injection h23 with h2 h3
          subst h3
          rw [goFatal_fstr, goFatal_stack]
          exact ⟨rfl, hne, rfl⟩
        · rw [if_neg hd2] at hA
          obtain ⟨hkn, hkl⟩ := popLoop_keeps (d.toNat + 1) M.stack hne
          obtain ⟨h1, h2, h3⟩ :=
            advancePush_keeps M currentName tr nextId (popLoop (d.toNat + 1) M.stack)
              hkn hactTr hA
          exact ⟨h1, h2, h3.trans hkl⟩

theorem advanceStep_keeps {α : Type} (fuel : Nat) (M : Fsm α) (current : StateContext α)
    (currentName : String)
    (hne : M.stack.stack ≠ [])
    (hacts : actionsPreserve M.fstr)
    {s : Option HistoryItem} {e : Option FsmError} {M' : Fsm α}
    (hA : advanceStep fuel M current currentName = some (s, e, M')) :
    M'.fstr = M.fstr ∧ M'.stack.stack ≠ [] ∧ lastStateOf M'.stack = lastStateOf M.stack := by
  unfold advanceStep at hA
  cases hscan : scanTransitions M.stack (M.fstr.stateOf current.state).Transitions none 0 with
  | none => rw [hscan] at hA; exact absurd hA (by simp)
  | some r =>
    rw [hscan] at hA
    cases r with
    | error msg =>
      simp only at hA
      have h := Option.some.inj hA
      injection h with h1 h23
      injection h23 with h2 h3
      subst h3
      rw [goFatal_fstr, goFatal_stack]
      exact ⟨rfl, hne, rfl⟩
    | ok pr =>
      obtain ⟨trOpt, cnt⟩ := pr
      match cnt, trOpt with
      | 0, trOpt =>
        simp only at hA
        have h := Option.some.inj hA
        injection h with h1 h23
        injection h23 with h2 h3
        subst h3
        rw [goFatal_fstr, goFatal_stack]
        exact ⟨rfl, hne, rfl⟩
      | 1, none => exact absurd hA (by simp)
      | 1, some tr =>
        simp only at hA
        cases hlk : List.lookup tr.ToState M.fstr.states with
        | none => rw [hlk] at hA; exact absurd hA (by simp)
        | some nextId =>
          rw [hlk] at hA
          have hmem : tr ∈ (M.fstr.stateOf current.state).Transitions := by
            rcases scanTransitions_ok_mem M.stack _ none 0 (some tr) 1 hscan with
              ⟨hres, _⟩ | ⟨t', ht', _, hres'⟩
            · exact absurd hres (by simp)
            · exact ((Option.some.inj hres').symm) ▸ ht'
          exact advanceResolve_keeps fuel M current.state currentName tr nextId hne
            (fun act ha => hacts current.state tr act hmem ha) hA
      | n + 2, trOpt =>
        simp only at hA
        have h := Option.some.inj hA
        injection h with h1 h23
        injection h23 with h2 h3
        subst h3
        rw [goFatal_fstr, goFatal_stack]
        exact ⟨rfl, hne, rfl⟩

theorem advance_keeps {α : Type} (fuel : Nat) (M : Fsm α)
    (hne : M.stack.stack ≠ [])
    (hacts : actionsPreserve M.fstr)
    {s : Option HistoryItem} {e : Option FsmError} {M' : Fsm α}
    (hA : Advance fuel M = some (s, e, M')) :
    M'.fstr = M.fstr ∧ M'.stack.stack ≠ [] ∧ lastStateOf M'.stack = lastStateOf M.stack := by
  unfold Advance at hA
  cases hpk : M.stack.peek with
  | none => rw [hpk] at hA; exact absurd hA (by simp)
  | some current =>
    rw [hpk] at hA
    simp only at hA
    by_cases hI : M.IdleB = true
    · rw [if_pos hI] at hA
      cases hv : structureValidate M.fstr fuel with
      | none => rw [hv] at hA; exact absurd hA (by simp)
      | some o =>
        rw [hv] at hA
        cases o with
        | some err =>
          simp only at hA
          have h := Option.some.inj hA
          injection h with h1 h23
          injection h23 with h2 h3
          subst h3
          rw [goFatal_fstr, goFatal_stack]
          exact ⟨rfl, hne, rfl⟩
        | none =>
          exact advanceStep_keeps fuel M current _ hne hacts hA
    · rw [if_neg hI] at hA
      by_cases hC : M.CompletedB = true
      · rw [if_pos hC] at hA
        have h := Option.some.inj hA
        injection h with h1 h23
        injection h23 with h2 h3
        subst h3
        exact ⟨rfl, hne, rfl⟩
      · rw [if_neg hC] at hA
        by_cases hF : M.FatalB = true
        · rw [if_pos hF] at hA
          have h := Option.some.inj hA
          injection h with h1 h23
          injection h23 with h2 h3
          subst h3
          exact ⟨rfl, hne, rfl⟩
        · rw [if_neg hF] at hA
          exact advanceStep_keeps fuel M current _ hne hacts hA

/-- Machines reachable from `NewFsm` on a fixed structure by any sequence of
`Advance` and `Reset` calls (an `Advance` step contributes only when the Go
call returns normally). -/
inductive Reach {α : Type} (w : Structure α) : Fsm α → Prop where
  | base : Reach w (NewFsm w)
  | step {M M' : Fsm α} {s : Option HistoryItem} {e : Option FsmError} (fuel : Nat) :
      Reach w M → Advance fuel M = some (s, e, M') → Reach w M'
  | reset {M : Fsm α} : Reach w M → Reach w M.Reset

theorem newFsm_stack {α : Type} (w : Structure α) :
    (NewFsm w).stack = ⟨[newStateContext w.start]⟩ := by
  unfold NewFsm initStackAutoStates newContextStack
  simp [ContextStack.isEmpty, ContextStack.depth, ContextStack.push]

/-- For every `Fsm` created by `NewFsm` on a structure and transformed by any
sequence of `Advance` and `Reset` calls (with actions confined to their
`ContextOperator` capability), the context stack is non-empty and its
outermost (bottom) entry is the structure's synthetic global/start state:
`NewFsm` and `Reset` seed the stack with it and the scope-popping loop of
`Advance` stops at the auto-state floor, so the unguarded `Peek` dereference
at the start of `Advance` always finds a state. -/
theorem claim_C9 {α : Type} (w : Structure α) (hacts : actionsPreserve w) :
    ∀ M : Fsm α, Reach w M →
      M.fstr = w ∧ M.stack.stack ≠ [] ∧
      (M.stack.stack.getLast?).map (fun f => f.state) = some w.start ∧
      M.stack.peek.isSome = true := by
  intro M hreach
  induction hreach with
  | base =>
    rw [newFsm_stack]
    refine ⟨rfl, by simp, by simp [newStateContext], rfl⟩
  | @step M0 M1 s0 e0 fuel hR hA ih =>
    obtain ⟨ihf, ihne, ihlast, _⟩ := ih
    obtain ⟨h1, h2, h3⟩ := advance_keeps fuel _ ihne (ihf ▸ hacts) hA
    have h4 : lastStateOf M1.stack = some w.start := by
      rw [h3, lastStateOf_eq]
      exact ihlast
    refine ⟨h1.trans ihf, h2, ?_, ?_⟩
    · rw [← lastStateOf_eq]
      exact h4
    · cases hh : M1.stack.stack with
      | nil => exact absurd hh h2
      | cons a l => simp [ContextStack.peek, hh]
  | @reset M0 hR ih =>
    obtain ⟨ihf, _, _, _⟩ := ih
    have hs : initStackAutoStates M0.fstr newContextStack =
        ⟨[newStateContext M0.fstr.start]⟩ := by
      unfold initStackAutoStates newContextStack
      simp [ContextStack.isEmpty, ContextStack.depth, ContextStack.push]
    refine ⟨ihf, ?_, ?_, ?_⟩
    · show (initStackAutoStates M0.fstr newContextStack).stack ≠ []
      rw [hs]
      simp
    · show Option.map (fun f => f.state)
        (initStackAutoStates M0.fstr newContextStack).stack.getLast? = some w.start
      rw [hs]
      simp [newStateContext, ihf]
    · show (initStackAutoStates M0.fstr newContextStack).peek.isSome = true
      rw [hs]
      rfl

theorem exFstrC1_actionsPreserve : actionsPreserve exFstrC1 := by
  intro id tr act hmem hact
  unfold exFstrC1 at hmem
  simp only at hmem
  unfold exHeapC1 at hmem
  by_cases h0 : id = 0
  · simp only [h0, if_pos rfl] at hmem
    simp [NewTransitionAlways] at hmem
    rw [hmem] at hact
    simp at hact
  · rw [if_neg h0] at hmem
    by_cases h1 : id = 1
    · simp only [h1, if_pos rfl] at hmem
      simp at hmem
      rcases hmem with hmem | hmem <;> rw [hmem] at hact <;>
        simp [exTrClosed, exTrOpen] at hact
    · rw [if_neg h1] at hmem
      simp at hmem

/-- Witness for `claim_C9` at the freshly constructed machine on the C1
witness world (whose actions are all absent). -/
theorem claim_C9_witness :
    actionsPreserve exFstrC1
    ∧ Reach exFstrC1 (NewFsm exFstrC1)
    ∧ ((NewFsm exFstrC1).fstr = exFstrC1 ∧ (NewFsm exFstrC1).stack.stack ≠ [] ∧
        ((NewFsm exFstrC1).stack.stack.getLast?).map (fun f => f.state) =
          some exFstrC1.start ∧
        (NewFsm exFstrC1).stack.peek.isSome = true) :=
  ⟨exFstrC1_actionsPreserve, Reach.base,
    claim_C9 exFstrC1 exFstrC1_actionsPreserve (NewFsm exFstrC1) Reach.base⟩

/-! ## Claim C6: Structure.Validate -/

/-- A transition passes the per-transition checks of `Structure.Validate`:
its target resolves in the table and source and target have a common
ancestor. -/
def trOk {α : Type} (fstr : Structure α) (fuel : Nat) (sid : StateId)
    (tr : Transition α) : Prop :=
  ∃ q, List.lookup tr.ToState fstr.states = some q ∧
    ∃ a d, findCommonAncestor fstr.stateOf fuel sid q = some (some a, d)

theorem vtl_sound {α : Type} (fstr : Structure α) (fuel : Nat) (sid : StateId) :
    ∀ (Ts : List (Transition α)) (refs refs' : String → Bool),
      validateTransLoop fstr fuel sid Ts refs = some (.ok refs') →
      (∀ tr ∈ Ts, trOk fstr fuel sid tr)
      ∧ ∀ n, refs' n = (refs n || Ts.any (fun tr => tr.ToState == n)) := by
  intro Ts
  induction Ts with
  | nil =>
    intro refs refs' h
    unfold validateTransLoop at h
    simp at h
    subst h
    exact ⟨by simp, fun n => by simp⟩
  | cons tr rest ih =>
    intro refs refs' h
    unfold validateTransLoop at h
    split at h
    · exact absurd h (by simp)
    · rename_i q hlk
      split at h
      · exact absurd h (by simp)
      · exact absurd h (by simp)
      · rename_i a d hfca
        obtain ⟨ihok, ihrefs⟩ := ih _ refs' h
        refine ⟨?_, ?_⟩
        · intro t ht
          rcases List.mem_cons.mp ht with hh | hh
          · subst hh
            exact ⟨q, hlk, a, d, hfca⟩
          · exact ihok t hh
        · intro n
          rw [ihrefs n]
          by_cases hn : n = tr.ToState
          · subst hn
            simp
          · have hne : (tr.ToState == n) = false := by
              simp
              exact fun hc => hn hc.symm
            simp only [List.any_cons, hne, Bool.false_or, if_neg hn]

theorem vtl_complete {α : Type} (fstr : Structure α) (fuel : Nat) (sid : StateId) :
    ∀ (Ts : List (Transition α)) (refs : String → Bool),
      (∀ tr ∈ Ts, trOk fstr fuel sid tr) →
      ∃ refs', validateTransLoop fstr fuel sid Ts refs = some (.ok refs') := by
  intro Ts
  induction Ts with
  | nil => intro refs _; exact ⟨refs, rfl⟩
  | cons tr rest ih =>
    intro refs hok
    obtain ⟨q, hlk, a, d, hfca⟩ := hok tr (List.mem_cons_self tr rest)
    obtain ⟨refs', hrefs'⟩ := ih (fun n => if n = tr.ToState then true else refs n)
      (fun t ht => hok t (List.mem_cons_of_mem tr ht))
    refine ⟨refs', ?_⟩
    unfold validateTransLoop
    simp only [hlk, hfca]
    exact hrefs'

/-- The referenced-as-transition-target marker accumulated by the validation
loop over a list of table entries. -/
def targetsMark {α : Type} (fstr : Structure α) (Ss : List (String × StateId))
    (n : String) : Bool :=
  Ss.any (fun p => (fstr.stateOf p.2).Transitions.any (fun tr => tr.ToState == n))

theorem vsl_sound {α : Type} (fstr : Structure α) (fuel : Nat) :
    ∀ (Ss : List (String × StateId)) (refs refs' : String → Bool),
      validateStatesLoop fstr fuel Ss refs = some (.ok refs') →
      (∀ p ∈ Ss, ∀ tr ∈ (fstr.stateOf p.2).Transitions, trOk fstr fuel p.2 tr)
      ∧ ∀ n, refs' n = (refs n || targetsMark fstr Ss n) := by
  intro Ss
  induction Ss with
  | nil =>
    intro refs refs' h
    unfold validateStatesLoop at h
    simp at h
    subst h
    exact ⟨by simp, fun n => by simp [targetsMark]⟩
  | cons p rest ih =>
    intro refs refs' h
    unfold validateStatesLoop at h
    split at h
    · exact absurd h (by simp)
    · exact absurd h (by simp)
    · rename_i hsv
      split at h
      · exact absurd h (by simp)
      · exact absurd h (by simp)
      · rename_i refs2 hvt
        obtain ⟨hok1, hrefs1⟩ := vtl_sound fstr fuel p.2 _ refs refs2 hvt
        obtain ⟨hok2, hrefs2⟩ := ih refs2 refs' h
        refine ⟨?_, ?_⟩
        · intro p' hp' tr htr
          rcases List.mem_cons.mp hp' with hh | hh
          · subst hh
            exact hok1 tr htr
          · exact hok2 p' hh tr htr
        · intro n
          rw [hrefs2 n, hrefs1 n]
          unfold targetsMark
          simp [Bool.or_assoc]

theorem vsl_complete {α : Type} (fstr : Structure α) (fuel : Nat) :
    ∀ (Ss : List (String × StateId)) (refs : String → Bool),
      (∀ p ∈ Ss, stateValidate fstr.stateOf fuel p.2 = some none) →
      (∀ p ∈ Ss, ∀ tr ∈ (fstr.stateOf p.2).Transitions, trOk fstr fuel p.2 tr) →
      ∃ refs', validateStatesLoop fstr fuel Ss refs = some (.ok refs') := by
  intro Ss
  induction Ss with
  | nil => intro refs _ _; exact ⟨refs, rfl⟩
  | cons p rest ih =>
    intro refs hval hok
    obtain ⟨refs2, hvt⟩ := vtl_complete fstr fuel p.2 (fstr.stateOf p.2).Transitions refs
      (hok p (List.mem_cons_self p rest))
    obtain ⟨refs', hrest⟩ := ih refs2
      (fun q hq => hval q (List.mem_cons_of_mem p hq))
      (fun q hq tr htr => hok q (List.mem_cons_of_mem p hq) tr htr)
    refine ⟨refs', ?_⟩
    unfold validateStatesLoop
    simp only [hval p (List.mem_cons_self p rest), hvt]
    exact hrest

/-- For every constructed `Structure` (all states individually valid, as the
construction API guarantees, and every start-substate link accompanied by the
transition that `addSubState` synthesizes for it), `Validate` succeeds if and
only if (a) every transition's target name resolves to a state in the table,
(b) every state other than the synthetic root is referenced as some
transition's target or as a start-substate, and (c) every transition's source
and target share a common ancestor. -/
theorem claim_C6 {α : Type} (fstr : Structure α) (fuel : Nat)
    (hvalid : ∀ p ∈ fstr.states, stateValidate fstr.stateOf fuel p.2 = some none)
    (hstartsub : ∀ p ∈ fstr.states, ∀ c, (fstr.stateOf p.2).StartSubState = some c →
      ∃ tr ∈ (fstr.stateOf p.2).Transitions, tr.ToState = (fstr.stateOf c).Name) :
    structureValidate fstr fuel = some none ↔
      ((∀ p ∈ fstr.states, ∀ tr ∈ (fstr.stateOf p.2).Transitions,
          (List.lookup tr.ToState fstr.states).isSome = true)
        ∧ (∀ p ∈ fstr.states, ∀ tr ∈ (fstr.stateOf p.2).Transitions, ∀ q,
            List.lookup tr.ToState fstr.states = some q →
            ∃ a d, findCommonAncestor fstr.stateOf fuel p.2 q = some (some a, d))
        ∧ (∀ p ∈ fstr.states, p.1 ≠ (fstr.stateOf fstr.start).Name →
            (∃ q ∈ fstr.states, ∃ tr ∈ (fstr.stateOf q.2).Transitions, tr.ToState = p.1)
            ∨ (∃ q ∈ fstr.states, ∃ c, (fstr.stateOf q.2).StartSubState = some c ∧
                (fstr.stateOf c).Name = p.1))) := by
  constructor
  · intro hv
    unfold structureValidate at hv
    split at hv
    · exact absurd hv (by simp)
    · exact absurd hv (by simp)
    · rename_i refsF hvsl
      obtain ⟨hok, hrefs⟩ := vsl_sound fstr fuel fstr.states _ refsF hvsl
      split at hv
      · exact absurd hv (by simp)
      · rename_i hlen
        have hall : ∀ n ∈ fstr.states.map Prod.fst, refsF n = true := by
          intro n hn
          have hnil : ((fstr.states.map Prod.fst).filter (fun n => !refsF n)) = [] := by
            rcases hfe : (fstr.states.map Prod.fst).filter (fun n => !refsF n) with _ | ⟨a, l⟩
            · rfl
            · exfalso
              apply hlen
              rw [hfe]
              simp
          have := List.filter_eq_nil_iff.mp hnil n hn
          simpa using this
        refine ⟨?_, ?_, ?_⟩
        · intro p hp tr htr
          obtain ⟨q, hlk, _⟩ := hok p hp tr htr
          rw [hlk]
          rfl
        · intro p hp tr htr q hq
          obtain ⟨q0, hlk, a, d, hfca⟩ := hok p hp tr htr
          rw [hlk] at hq
          exact ⟨a, d, (Option.some.inj hq) ▸ hfca⟩
        · intro p hp hne
          have hmark : refsF p.1 = true := hall p.1 (List.mem_map.mpr ⟨p, hp, rfl⟩)
          rw [hrefs p.1] at hmark
          have hroot : (decide (p.1 = (fstr.stateOf fstr.start).Name)) = false := by
            simpa using hne
          rw [hroot] at hmark
          simp only [Bool.false_or] at hmark
          unfold targetsMark at hmark
          rw [List.any_eq_true] at hmark
          obtain ⟨q, hq, hqmark⟩ := hmark
          rw [List.any_eq_true] at hqmark
          obtain ⟨tr, htr, hts⟩ := hqmark
          exact Or.inl ⟨q, hq, tr, htr, by simpa using hts⟩
  · rintro ⟨hA, hC, hB⟩
    have htrOk : ∀ p ∈ fstr.states, ∀ tr ∈ (fstr.stateOf p.2).Transitions,
        trOk fstr fuel p.2 tr := by
      intro p hp tr htr
      obtain ⟨q, hq⟩ := Option.isSome_iff_exists.mp (hA p hp tr htr)
      exact ⟨q, hq, hC p hp tr htr q hq⟩
    obtain ⟨refsF, hvsl⟩ := vsl_complete fstr fuel fstr.states
      (fun n => n = (fstr.stateOf fstr.start).Name) hvalid htrOk
    obtain ⟨_, hrefs⟩ := vsl_sound fstr fuel fstr.states _ refsF hvsl
    have hall : ∀ n ∈ fstr.states.map Prod.fst, refsF n = true := by
      intro n hn
      rw [hrefs n]
      by_cases hroot : n = (fstr.stateOf fstr.start).Name
      · simp [hroot]
      · obtain ⟨p, hp, hpn⟩ := List.mem_map.mp hn
        have hBp := hB p hp (by rw [hpn]; exact hroot)
        have hmark : targetsMark fstr fstr.states n = true := by
          unfold targetsMark
          rw [List.any_eq_true]
          rcases hBp with ⟨q, hq, tr, htr, hts⟩ | ⟨q, hq, c, hcs, hcn⟩
          · exact ⟨q, hq, List.any_eq_true.mpr ⟨tr, htr, by simp [hts, hpn]⟩⟩
          · obtain ⟨tr, htr, hts⟩ := hstartsub q hq c hcs
            exact ⟨q, hq, List.any_eq_true.mpr ⟨tr, htr, by simp [hts, hcn, hpn]⟩⟩
        rw [hmark]
        simp
    have hnil : ((fstr.states.map Prod.fst).filter (fun n => !refsF n)) = [] := by
      rw [List.filter_eq_nil_iff]
      intro n hn
      simp [hall n hn]
    unfold structureValidate
    simp only [hvsl]
    rw [hnil]
    simp

/-- Witness for `claim_C6` on the concrete three-state structure
`exFstrC1`, whose validation succeeds. -/
theorem claim_C6_witness :
    (∀ p ∈ exFstrC1.states, stateValidate exFstrC1.stateOf 5 p.2 = some none)
    ∧ (∀ p ∈ exFstrC1.states, ∀ c, (exFstrC1.stateOf p.2).StartSubState = some c →
        ∃ tr ∈ (exFstrC1.stateOf p.2).Transitions, tr.ToState = (exFstrC1.stateOf c).Name)
    ∧ structureValidate exFstrC1 5 = some none
    ∧ (structureValidate exFstrC1 5 = some none ↔
        ((∀ p ∈ exFstrC1.states, ∀ tr ∈ (exFstrC1.stateOf p.2).Transitions,
            (List.lookup tr.ToState exFstrC1.states).isSome = true)
          ∧ (∀ p ∈ exFstrC1.states, ∀ tr ∈ (exFstrC1.stateOf p.2).Transitions, ∀ q,
              List.lookup tr.ToState exFstrC1.states = some q →
              ∃ a d, findCommonAncestor exFstrC1.stateOf 5 p.2 q = some (some a, d))
          ∧ (∀ p ∈ exFstrC1.states, p.1 ≠ (exFstrC1.stateOf exFstrC1.start).Name →
              (∃ q ∈ exFstrC1.states, ∃ tr ∈ (exFstrC1.stateOf q.2).Transitions,
                tr.ToState = p.1)
              ∨ (∃ q ∈ exFstrC1.states, ∃ c,
                  (exFstrC1.stateOf q.2).StartSubState = some c ∧
                  (exFstrC1.stateOf c).Name = p.1)))) := by
  have hv : ∀ p ∈ exFstrC1.states, stateValidate exFstrC1.stateOf 5 p.2 = some none := by
    intro p hp
    fin_cases hp <;> rfl
  have hs : ∀ p ∈ exFstrC1.states, ∀ c, (exFstrC1.stateOf p.2).StartSubState = some c →
      ∃ tr ∈ (exFstrC1.stateOf p.2).Transitions, tr.ToState = (exFstrC1.stateOf c).Name := by
    intro p hp c hc
    fin_cases hp
    · have hc1 : c = 1 := (Option.some.inj hc).symm
      subst hc1
      refine ⟨{ Name := "Always global->a", ToState := "a",
                Guard := some (fun _ => (true, none)), Action := none }, ?_, ?_⟩
      · show _ ∈ (exFstrC1.stateOf 0).Transitions
        simp [exFstrC1, exHeapC1, NewTransitionAlways]
      · simp [exFstrC1, exHeapC1]
    · simp [exFstrC1, exHeapC1] at hc
    · simp [exFstrC1, exHeapC1] at hc
  exact ⟨hv, hs, rfl, claim_C6 exFstrC1 5 hv hs⟩

/-! ## Builder (builder.go, json_types.go and the transition.go variant they
compile with, where `Transition.Action` is a `*PackagedAction`) -/

/-- `PackagedAction`: an action functor with bound parameters. -/
structure PackagedAction (α : Type) where
  Fn : Option (ActionFn α)
  Params : List (String × α)

/-- `NewAction`. -/
def NewAction {α : Type} (fn : ActionFn α) : PackagedAction α :=
  { Fn := some fn, Params := [] }

/-- The builder-side `Transition` (transition.go of the builder snapshot). -/
structure BTransition (α : Type) where
  Name : String
  ToState : String
  Guard : Option (GuardFn α)
  Action : Option (PackagedAction α)

/-- Builder-side `NewTransitionAlways`. -/
def NewBTransitionAlways {α : Type} (name : String) (toName : String)
    (action : Option (PackagedAction α)) : List (BTransition α) :=
  [{ Name := name, ToState := toName, Guard := some (fun _ => (true, none)),
     Action := action }]

/-- Builder-side `StateInfo` node. -/
structure BStateNode (α : Type) where
  Name : String
  Parent : Option StateId
  StartSubState : Option StateId
  Transitions : List (BTransition α)

/-- The builder's allocation arena for `StateInfo` objects. -/
structure BHeap (α : Type) where
  mem : Nat → BStateNode α
  next : Nat

def BHeap.empty {α : Type} : BHeap α :=
  { mem := fun _ => { Name := "", Parent := none, StartSubState := none, Transitions := [] }
    next := 0 }

def BHeap.alloc {α : Type} (h : BHeap α) (node : BStateNode α) : StateId × BHeap α :=
  (h.next, { mem := fun i => if i = h.next then node else h.mem i, next := h.next + 1 })

def BHeap.set {α : Type} (h : BHeap α) (id : StateId) (node : BStateNode α) : BHeap α :=
  { h with mem := fun i => if i = id then node else h.mem i }

/-- Builder-side `StateInfo.addSubState` (same algorithm as the fsm-side
`addSubState`, over the builder node/transition types). -/
def addSubStateB {α : Type} (h : BHeap α) (si : StateId) (sub : StateId) (start : Bool) :
    Option FsmError × BHeap α :=
  if (h.mem sub).Parent.isSome then
    (some (newFsmErrorStateIsInvalid "Sub state already has a parent"), h)
  else if start ∧ (h.mem si).StartSubState.isSome then
    (some (newFsmErrorStateIsInvalid "Parent state already has start sub state defined"), h)
  else
    let h1 := h.set sub { h.mem sub with Parent := some si }
    if start then
      let h2 := h1.set si { h1.mem si with StartSubState := some sub }
      if (h2.mem si).Transitions.length > 0 then
        (some (newFsmErrorStateIsInvalid
          ("Start transition can\x27t be used on\n\t\t\t\tparent with transitions defined, " ++
           "it\x27ll lead to discarding original\n\t\t\t\ttransitions")), h2)
      else
        let trName := "Always " ++ (h2.mem si).Name ++ "->" ++ (h2.mem sub).Name
        (none, h2.set si
          { h2.mem si with Transitions := NewBTransitionAlways trName ((h2.mem sub).Name) none })
    else (none, h1)

/-- `JsonGuard`: decoded guard declaration.  `Value` is `interface{}` in Go
(`none` models JSON null / absence). -/
structure JsonGuard (α : Type) where
  type' : String
  Key : String
  Value : Option α

/-- `JsonGuard.GuardFn`.  Go compares the bound literal to the looked-up
context value with `==` for bool/string/nil and with a reflective
`castToFloat64` numeric widening for float64; over the opaque value type the
comparison is abstracted to `BEq α` equality. -/
def JsonGuard.GuardFn {α : Type} [BEq α] (jg : JsonGuard α) :
    Except FsmError (GuardFn α) :=
  if jg.type' = "always" ∨ jg.type' = "" then
    .ok (fun _ => (true, none))
  else if jg.type' = "context" then
    if jg.Key.length = 0 ∨ jg.Value.isNone then
      .error (newFsmErrorInvalid "No key/value specified")
    else
      .ok (fun st =>
        match ContextStack.raw st jg.Key with
        | .ok raw =>
          match jg.Value with
          | some v => (v == raw, none)
          | none => (false, none)
        | .error e => (false, some e.errorString))
  else .error (newFsmErrorInvalid "unknown guard type")

/-- `JsonAction`: decoded action declaration. -/
structure JsonAction (α : Type) where
  Name : String
  Params : List (String × α)

/-- `JsonAction.PackagedAction`: resolve the action name in the caller's
registry and bind the declared parameters. -/
def JsonAction.PackagedAction {α : Type} (ja : JsonAction α)
    (actions : List (String × ActionFn α)) :
    Except FsmError (Option (PackagedAction α)) :=
  if ja.Name.length = 0 then .ok none
  else
    match List.lookup ja.Name actions with
    | none =>
      .error (newFsmErrorInvalid
        ("action \"" ++ ja.Name ++ "\" was not found in the map: <dump>"))
    | some act => .ok (some { NewAction act with Params := ja.Params })

/-- `JsonTransition`: decoded transition declaration. -/
structure JsonTransition (α : Type) where
  ToState : String
  Guard : JsonGuard α
  Action : JsonAction α

/-- `JsonTransition.Transition`. -/
def JsonTransition.Transition {α : Type} [BEq α] (jt : JsonTransition α) (name : String)
    (actions : List (String × ActionFn α)) : Except FsmError (BTransition α) :=
  match jt.Action.PackagedAction actions with
  | .error e => .error e
  | .ok action =>
    match jt.Guard.GuardFn with
    | .error e => .error e
    | .ok guard => .ok { Name := name, ToState := jt.ToState, Guard := some guard,
                         Action := action }

/-- `JsonState`: decoded state declaration record. -/
structure JsonState (α : Type) where
  Start : Bool
  StartSubState : String
  Parent : String
  Transitions : List (String × JsonTransition α)

/-- The transition-conversion loop of `JsonState.StateInfo`. -/
def jsTransLoop {α : Type} [BEq α] (actions : List (String × ActionFn α)) :
    List (String × JsonTransition α) → Except FsmError (List (BTransition α))
  | [] => .ok []
  | (trName, jtr) :: rest =>
    match jtr.Transition trName actions with
    | .error e => .error e
    | .ok tr =>
      match jsTransLoop actions rest with
      | .error e => .error e
      | .ok trs => .ok (tr :: trs)

/-- `JsonState.StateInfo`: materialize the declaration into a fresh
`StateInfo` node, linking it under the given parent.  Note that Go discards
the error returned by the `parent.addSubState` call at the end. -/
def JsonState.StateInfo {α : Type} [BEq α] (js : JsonState α) (name : String)
    (parent : Option StateId) (actions : List (String × ActionFn α)) (h : BHeap α) :
    Except FsmError (StateId × BHeap α) :=
  match
    (if js.StartSubState.length > 0 then
      if js.Transitions.length > 0 then
        .error (newFsmErrorInvalid "State w/ start sub state can\x27t have custom transitions")
      else
        let trName := "Always " ++ name ++ "->" ++ js.StartSubState
        let node : BStateNode α :=
          { Name := name, Parent := none, StartSubState := none,
            Transitions := NewBTransitionAlways trName js.StartSubState none }
        .ok (h.alloc node, true)
    else
      match jsTransLoop actions js.Transitions with
      | .error e => .error e
      | .ok trs =>
        let node : BStateNode α :=
          { Name := name, Parent := none, StartSubState := none, Transitions := trs }
        .ok (h.alloc node, false) :
      Except FsmError ((StateId × BHeap α) × Bool))
  with
  | .error e => .error e
  | .ok ((si, h1), start) =>
    if js.Parent.length > 0 then
      match parent with
      | none => .error (newFsmErrorInvalid "Json defined a parent, but parent object is empty")
      | some pid =>
        if (h1.mem pid).Name ≠ js.Parent then
          .error (newFsmErrorInvalid
            ("Parent (" ++ (h1.mem pid).Name ++ ") is different from expected (" ++
             js.Parent ++ ")"))
        else
          .ok (si, (addSubStateB h1 pid si start).2)
    else .ok (si, h1)

/-! ## Dependency resolution (builder.go `buildStateHierarchy` /
`satisfyDependencies`) -/

/-- Read a `depMarkers` entry: (visited, visiting); out-of-range reads give
the zero marker (cannot occur for indices below the state count). -/
def markersGet (m : List (Bool × Bool)) (i : Nat) : Bool × Bool :=
  m.getD i (false, false)

/-- The `indexes` map: state name → index; Go map lookup of a missing key
yields the zero value `0`. -/
def indexesOf (names : List String) (n : String) : Nat :=
  (names.indexOf? n).getD 0

/-- Dependency-graph construction: `graph[i][j]` means `i` depends on `j`
(`i` is a child of `j`, or `i` is declared as `j`'s start substate). -/
def buildGraph {α : Type} (states : List (String × JsonState α)) (names : List String) :
    Nat → Nat → Bool :=
  states.foldl
    (fun g p =>
      let g1 : Nat → Nat → Bool :=
        if p.2.Parent.length > 0 then
          fun a b =>
            if a = indexesOf names p.1 ∧ b = indexesOf names p.2.Parent then true else g a b
        else g
      if p.2.StartSubState.length > 0 then
        fun a b =>
          if a = indexesOf names p.2.StartSubState ∧ b = indexesOf names p.1 then true
          else g1 a b
      else g1)
    (fun _ _ => false)

/-- The mutable state threaded through `satisfyDependencies`: the marker
array, the start pointer, the result table and the allocation arena. -/
structure DepSt (α : Type) where
  markers : List (Bool × Bool)
  start : Option StateId
  dest : List (String × StateId)
  heap : BHeap α

/-- The default `JsonState` returned by a Go map lookup of a missing key. -/
def jsDefault {α : Type} : JsonState α :=
  { Start := false, StartSubState := "", Parent := "", Transitions := [] }

/-- The materialization tail of `satisfyDependencies` (everything after the
dependency loop): resolve the parent reference, build the `StateInfo`, and
commit it as the start state or into the result table. -/
def materialize {α : Type} [BEq α] (index : Nat) (names : List String)
    (source : List (String × JsonState α)) (actions : List (String × ActionFn α))
    (s : DepSt α) : Except FsmError (DepSt α) :=
  let name := names.getD index ""
  let js := (List.lookup name source).getD jsDefault
  let parentName := js.Parent
  let parentRes : Except FsmError (Option StateId) :=
    if parentName.length > 0 then
      let parentOpt : Option StateId :=
        match s.start with
        | some st =>
          if (s.heap.mem st).Name = parentName then some st
          else List.lookup parentName s.dest
        | none => List.lookup parentName s.dest
      match parentOpt with
      | none =>
        .error (newFsmErrorLoading
          ("Internal error: parent (" ++ parentName ++ ") is to be added before the child (" ++
           name ++ ")"))
      | some parent => .ok (some parent)
    else .ok none
  match parentRes with
  | .error e => .error e
  | .ok parent =>
    match js.StateInfo name parent actions s.heap with
    | .error e => .error e
    | .ok (si, h2) =>
      if js.Start then
        match s.start with
        | some st =>
          .error (newFsmErrorLoading
            ("Several start states defined (" ++ (h2.mem st).Name ++ ", " ++
             (h2.mem si).Name ++ ")"))
        | none => .ok { s with heap := h2, start := some si }
      else .ok { s with heap := h2, dest := s.dest ++ [(name, si)] }

/-- The deferred marker update of `satisfyDependencies`: mark visited, clear
visiting. -/
def markDone {α : Type} (index : Nat) (s : DepSt α) : DepSt α :=
  { s with markers := s.markers.set index (true, false) }

/-- The dependency loop of `satisfyDependencies`, parametric in the
recursive visit `sat` (the nested `satisfyDependencies` call at one fuel
less): visit every `onIdx` with `graph[index][onIdx]` set, for `onIdx`
ranging over the `rem` indices starting at `onIdx`. -/
def depLoop {α : Type} (sat : Nat → DepSt α → Option (Except FsmError (DepSt α)))
    (graph : Nat → Nat → Bool) (index : Nat) :
    Nat → Nat → DepSt α → Option (Except FsmError (DepSt α))
  | 0, _, s => some (.ok s)
  | rem + 1, onIdx, s =>
    if graph index onIdx then
      match sat onIdx s with
      | none => none
      | some (.error e) => some (.error e)
      | some (.ok s') => depLoop sat graph index rem (onIdx + 1) s'
    else depLoop sat graph index rem (onIdx + 1) s

/-- `satisfyDependencies`: depth-first resolution of one state's dependency
cone, with three-color marking.  `fuel` bounds the recursion depth; `none`
models non-termination (shown impossible for enough fuel).  Go's `defer`
(mark visited, clear visiting) also runs on error returns, but an error
aborts the whole build, so the marker state after an error is dead — the
`Except.error` result drops it. -/
def satisfyDependencies {α : Type} [BEq α] (fuel : Nat) (graph : Nat → Nat → Bool)
    (count : Nat) (index : Nat) (names : List String)
    (source : List (String × JsonState α)) (actions : List (String × ActionFn α))
    (s : DepSt α) : Option (Except FsmError (DepSt α)) :=
  match fuel with
  | 0 => none
  | fuel + 1 =>
    if (markersGet s.markers index).2 then
      some (.error (newFsmErrorLoading "State hierarchy is cycled"))
    else if (markersGet s.markers index).1 then
      some (.ok s)
    else
      match depLoop (fun onIdx s' =>
          satisfyDependencies fuel graph count onIdx names source actions s')
          graph index count 0
          { s with markers := s.markers.set index (false, true) } with
      | none => none
      | some (.error e) => some (.error e)
      | some (.ok s2) =>
        match materialize index names source actions s2 with
        | .error e => some (.error e)
        | .ok s3 => some (.ok (markDone index s3))

/-- The main loop of `buildStateHierarchy` over all state indices. -/
def satisfyAll {α : Type} [BEq α] (fuel : Nat) (graph : Nat → Nat → Bool) (count : Nat)
    (names : List String) (source : List (String × JsonState α))
    (actions : List (String × ActionFn α)) :
    List Nat → DepSt α → Option (Except FsmError (DepSt α))
  | [], s => some (.ok s)
  | idx :: rest, s =>
    match satisfyDependencies fuel graph count idx names source actions s with
    | none => none
    | some (.error e) => some (.error e)
    | some (.ok s') => satisfyAll fuel graph count names source actions rest s'

/-- `buildStateHierarchy`: build the dependency graph over the declarations
and materialize every state in dependency order.  Go's recursion carries no
fuel; the bound `count + 1` is sufficient (`buildStateHierarchy_isSome`). -/
def buildStateHierarchy {α : Type} [BEq α] (states : List (String × JsonState α))
    (actions : List (String × ActionFn α)) :
    Option (Except FsmError (Option StateId × List (String × StateId) × BHeap α)) :=
  match satisfyAll (states.length + 1) (buildGraph states (states.map Prod.fst))
      states.length (states.map Prod.fst) states actions (List.range states.length)
      { markers := List.replicate states.length (false, false), start := none, dest := [],
        heap := BHeap.empty } with
  | none => none
  | some (.error e) => some (.error e)
  | some (.ok s) => some (.ok (s.start, s.dest, s.heap))

/-! ## Claim C4: cycle detection in the dependency resolution -/

theorem markersGet_set_self (m : List (Bool × Bool)) (i : Nat) (v : Bool × Bool)
    (h : i < m.length) : markersGet (m.set i v) i = v := by
  simp [markersGet, List.getD_eq_getElem?_getD, List.getElem?_set, h]

theorem markersGet_set_ne (m : List (Bool × Bool)) (i j : Nat) (v : Bool × Bool)
    (hne : j ≠ i) : markersGet (m.set i v) j = markersGet m j := by
  simp [markersGet, List.getD_eq_getElem?_getD, List.getElem?_set, Ne.symm hne]

theorem markersGet_replicate (n i : Nat) :
    markersGet (List.replicate n (false, false)) i = (false, false) := by
  rcases lt_or_ge i n with h | h
  · simp [markersGet, List.getD_eq_getElem?_getD, List.getElem?_replicate, h]
  · have hlen : (List.replicate n ((false, false) : Bool × Bool)).length ≤ i := by
      simpa using h
    simp [markersGet, List.getD_eq_getElem?_getD, List.getElem?_eq_none hlen]

/-- A completion order certifying the visited set: visited nodes are exactly
the members, and every visited node's dependencies (within the index range)
complete strictly earlier. -/
def goodOrder (graph : Nat → Nat → Bool) (count : Nat) (m : List (Bool × Bool))
    (order : List Nat) : Prop :=
  order.Nodup
  ∧ (∀ i, (markersGet m i).1 = true ↔ i ∈ order)
  ∧ (∀ k i, order[k]? = some i → ∀ j, j < count → graph i j = true → j ∈ order.take k)

/-- Marker-state evolution along a successful traversal call: lengths and
visiting bits are preserved, visited bits only grow, nodes marked visiting at
entry are never newly visited, and completion orders extend. -/
def marksInv {α : Type} (graph : Nat → Nat → Bool) (count : Nat) (s s' : DepSt α) : Prop :=
  s'.markers.length = s.markers.length
  ∧ (∀ i, (markersGet s.markers i).1 = true → (markersGet s'.markers i).1 = true)
  ∧ (∀ i, (markersGet s'.markers i).2 = (markersGet s.markers i).2)
  ∧ (∀ i, (markersGet s.markers i).2 = true →
      (markersGet s'.markers i).1 = (markersGet s.markers i).1)
  ∧ (∀ order, goodOrder graph count s.markers order →
      ∃ order', goodOrder graph count s'.markers order' ∧ order <+: order')

theorem marksInv_refl {α : Type} (graph : Nat → Nat → Bool) (count : Nat) (s : DepSt α) :
    marksInv graph count s s :=
  ⟨rfl, fun _ h => h, fun _ => rfl, fun _ _ => rfl,
    fun order h => ⟨order, h, List.prefix_refl order⟩⟩

theorem marksInv_trans {α : Type} (graph : Nat → Nat → Bool) (count : Nat)
    {s1 s2 s3 : DepSt α} (h12 : marksInv graph count s1 s2)
    (h23 : marksInv graph count s2 s3) : marksInv graph count s1 s3 := by
  obtain ⟨l12, m12, v12, p12, g12⟩ := h12
  obtain ⟨l23, m23, v23, p23, g23⟩ := h23
  refine ⟨l23.trans l12, fun i h => m23 i (m12 i h), fun i => (v23 i).trans (v12 i),
    ?_, ?_⟩
  · intro i h
    have h2 : (markersGet s2.markers i).2 = true := (v12 i).trans h ▸ (v12 i) ▸ rfl
    rw [p23 i (by rw [v12 i]; exact h), p12 i h]
  · intro order h
    obtain ⟨o2, ho2, hp2⟩ := g12 order h
    obtain ⟨o3, ho3, hp3⟩ := g23 o2 ho2
    exact ⟨o3, ho3, hp2.trans hp3⟩

theorem goodOrder_congr {graph : Nat → Nat → Bool} {count : Nat}
    {m1 m2 : List (Bool × Bool)} (h : ∀ i, (markersGet m2 i).1 = (markersGet m1 i).1)
    {order : List Nat} (hg : goodOrder graph count m1 order) :
    goodOrder graph count m2 order := by
  obtain ⟨hn, hi, hs⟩ := hg
  exact ⟨hn, fun i => (h i) ▸ hi i, hs⟩

theorem depLoop_keeps {α : Type} (graph : Nat → Nat → Bool) (count : Nat)
    (sat : Nat → DepSt α → Option (Except FsmError (DepSt α))) (index : Nat)
    (hsat : ∀ j (s s' : DepSt α), j < count → s.markers.length = count →
      sat j s = some (.ok s') →
      marksInv graph count s s' ∧ (markersGet s'.markers j).1 = true) :
    ∀ (rem onIdx : Nat) (s s' : DepSt α),
      depLoop sat graph index rem onIdx s = some (.ok s') →
      onIdx + rem ≤ count → s.markers.length = count →
      marksInv graph count s s'
      ∧ (∀ jj, onIdx ≤ jj → jj < onIdx + rem → graph index jj = true →
          (markersGet s'.markers jj).1 = true) := by
  intro rem
  induction rem with
  | zero =>
    intro onIdx s s' h _ _
    unfold depLoop at h
    simp at h
    subst h
    exact ⟨marksInv_refl graph count s, fun jj h1 h2 _ => absurd h2 (by omega)⟩
  | succ m ih =>
    intro onIdx s s' h hle hlen
    unfold depLoop at h
    by_cases hg : graph index onIdx = true
    · rw [if_pos hg] at h
      cases hone : sat onIdx s with
      | none => rw [hone] at h; exact absurd h (by simp)
      | some r =>
        rw [hone] at h
        cases r with
        | error e => exact absurd h (by simp)
        | ok s1 =>
          obtain ⟨inv1, hv1⟩ := hsat onIdx s s1 (by omega) hlen hone
          have hlen1 : s1.markers.length = count := inv1.1.trans hlen
          obtain ⟨inv2, hv2⟩ := ih (onIdx + 1) s1 s' h (by omega) hlen1
          refine ⟨marksInv_trans graph count inv1 inv2, ?_⟩
          intro jj hj1 hj2 hjg
          by_cases hj : jj = onIdx
          · subst hj
            exact inv2.2.1 jj hv1
          · exact hv2 jj (by omega) (by omega) hjg
    · rw [if_neg hg] at h
      obtain ⟨inv2, hv2⟩ := ih (onIdx + 1) s s' h (by omega) hlen
      refine ⟨inv2, ?_⟩
      intro jj hj1 hj2 hjg
      by_cases hj : jj = onIdx
      · subst hj
        exact absurd hjg hg
      · exact hv2 jj (by omega) (by omega) hjg

theorem materialize_markers {α : Type} [BEq α] (index : Nat) (names : List String)
    (source : List (String × JsonState α)) (actions : List (String × ActionFn α))
    (s s3 : DepSt α) (h : materialize index names source actions s = .ok s3) :
    s3.markers = s.markers := by
  simp only [materialize] at h
  repeat' split at h
  all_goals
    first
      | (simp at h
         done)
      | (have hs3 := Except.ok.inj h
         subst hs3
         rfl)

theorem satisfy_keeps {α : Type} [BEq α] (graph : Nat → Nat → Bool) (count : Nat)
    (names : List String) (source : List (String × JsonState α))
    (actions : List (String × ActionFn α)) :
    ∀ (fuel index : Nat) (s s' : DepSt α),
      index < count → s.markers.length = count →
      satisfyDependencies fuel graph count index names source actions s = some (.ok s') →
      marksInv graph count s s' ∧ (markersGet s'.markers index).1 = true := by
  intro fuel
  induction fuel with
  | zero =>
    intro index s s' _ _ h
    exact absurd h (by simp [satisfyDependencies])
  | succ f ih =>
    intro index s s' hidx hlen h
    unfold satisfyDependencies at h
    by_cases hv2 : (markersGet s.markers index).2 = true
    · rw [if_pos hv2] at h
      exact absurd h (by simp)
    · rw [if_neg hv2] at h
      by_cases hv1 : (markersGet s.markers index).1 = true
      · rw [if_pos hv1] at h
        have hs' := Except.ok.inj (Option.some.inj h)
        subst hs'
        exact ⟨marksInv_refl graph count s, hv1⟩
      · rw [if_neg hv1] at h
        split at h
        · exact absurd h (by simp)
        · exact absurd h (by simp)
        · rename_i s2 hdep
          split at h
          · exact absurd h (by simp)
          · rename_i s3 hmat
            have hs' : s' = markDone index s3 := (Except.ok.inj (Option.some.inj h)).symm
            subst hs'
            have hv1f : (markersGet s.markers index).1 = false := by simpa using hv1
            have hv2f : (markersGet s.markers index).2 = false := by simpa using hv2
            have hidxlen : index < s.markers.length := by omega
            have hm_s1_self :
                markersGet (s.markers.set index (false, true)) index = (false, true) :=
              markersGet_set_self _ _ _ hidxlen
            have hm_s1_ne : ∀ i, i ≠ index →
                markersGet (s.markers.set index (false, true)) i = markersGet s.markers i :=
              fun i hi => markersGet_set_ne _ _ _ _ hi
            have hvisited_s1 : ∀ i,
                (markersGet (s.markers.set index (false, true)) i).1 =
                (markersGet s.markers i).1 := by
              intro i
              by_cases hi : i = index
              · subst hi
                rw [hm_s1_self, hv1f]
              · rw [hm_s1_ne i hi]
            obtain ⟨inv1, succs⟩ := depLoop_keeps graph count _ index
              (fun j t t' hj hl ht => ih j t t' hj hl ht) count 0
              { s with markers := s.markers.set index (false, true) } s2 hdep
              (by omega) (by simpa using hlen)
            obtain ⟨len2, mono2, vis2, prot2, good2⟩ := inv1
            have hmat_m : s3.markers = s2.markers :=
              materialize_markers _ _ _ _ _ _ hmat
            have hlen2 : s2.markers.length = count := by
              rw [len2]
              simpa using hlen
            have hidx2 : index < s2.markers.length := by omega
            have hfin_self : markersGet (markDone index s3).markers index = (true, false) := by
              show markersGet (s3.markers.set index (true, false)) index = _
              rw [hmat_m]
              exact markersGet_set_self _ _ _ hidx2
            have hfin_ne : ∀ i, i ≠ index →
                markersGet (markDone index s3).markers i = markersGet s2.markers i := by
              intro i hi
              show markersGet (s3.markers.set index (true, false)) i = _
              rw [hmat_m]
              exact markersGet_set_ne _ _ _ _ hi
            have hvis_s1_idx : (markersGet (s.markers.set index (false, true)) index).2 = true := by
              rw [hm_s1_self]
            have hvisited2idx : (markersGet s2.markers index).1 = false := by
              rw [prot2 index hvis_s1_idx, hm_s1_self]
            refine ⟨⟨?_, ?_, ?_, ?_, ?_⟩, ?_⟩
            · show (s3.markers.set index (true, false)).length = s.markers.length
              rw [hmat_m, List.length_set, hlen2, hlen]
            · intro i hi
              have hine : i ≠ index := by
                intro he
                subst he
                rw [hv1f] at hi
                exact absurd hi (by simp)
              rw [hfin_ne i hine]
              exact mono2 i ((hvisited_s1 i).symm ▸ hi)
            · intro i
              by_cases hi : i = index
              · subst hi
                rw [hfin_self, hv2f]
              · rw [hfin_ne i hi, vis2 i, hm_s1_ne i hi]
            · intro i hvi
              have hine : i ≠ index := by
                intro he
                subst he
                rw [hv2f] at hvi
                exact absurd hvi (by simp)
              rw [hfin_ne i hine]
              have hv1i : (markersGet (s.markers.set index (false, true)) i).2 = true := by
                rw [hm_s1_ne i hine]
                exact hvi
              rw [prot2 i hv1i, hm_s1_ne i hine]
            · intro order hg
              have hg1 : goodOrder graph count (s.markers.set index (false, true)) order :=
                goodOrder_congr hvisited_s1 hg
              obtain ⟨order2, hg2, hpre⟩ := good2 order hg1
              have hnotmem : index ∉ order2 := by
                intro hmem
                have := (hg2.2.1 index).mpr hmem
                rw [hvisited2idx] at this
                exact absurd this (by simp)
              refine ⟨order2 ++ [index], ⟨?_, ?_, ?_⟩, hpre.trans ⟨[index], rfl⟩⟩
              · rw [List.nodup_append]
                refine ⟨hg2.1, List.nodup_singleton index, ?_⟩
                intro a ha hb
                exact hnotmem ((List.mem_singleton.mp hb) ▸ ha)
              · intro i
                by_cases hi : i = index
                · subst hi
                  simp [hfin_self]
                · rw [hfin_ne i hi, hg2.2.1 i]
                  constructor
                  · exact fun hm => List.mem_append_left _ hm
                  · intro hm
                    rcases List.mem_append.mp hm with hm | hm
                    · exact hm
                    · exact absurd (List.mem_singleton.mp hm) hi
              · intro k i hk j hj hgj
                by_cases hklen : k < order2.length
                · rw [List.getElem?_append_left hklen] at hk
                  have := hg2.2.2 k i hk j hj hgj
                  rw [List.take_append_of_le_length (le_of_lt hklen)]
                  exact this
                · by_cases hkeq : k = order2.length
                  · subst hkeq
                    have hsome : (order2 ++ [index])[order2.length]? = some index := by
                      simp [List.getElem?_concat_length]
                    rw [hsome] at hk
                    have hieq : i = index := (Option.some.inj hk).symm
                    subst hieq
                    have hvj : (markersGet s2.markers j).1 = true :=
                      succs j (by omega) (by omega) hgj
                    have hjmem : j ∈ order2 := (hg2.2.1 j).mp hvj
                    rw [List.take_append_of_le_length (le_refl _), List.take_length]
                    exact hjmem
                  · have hnone : (order2 ++ [index])[k]? = none := by
                      apply List.getElem?_eq_none
                      simp
                      omega
                    rw [hnone] at hk
                    exact absurd hk (by simp)
            · rw [hfin_self]

theorem satisfyAll_keeps {α : Type} [BEq α] (graph : Nat → Nat → Bool) (count fuel : Nat)
    (names : List String) (source : List (String × JsonState α))
    (actions : List (String × ActionFn α)) :
    ∀ (idxs : List Nat) (s s' : DepSt α),
      (∀ i ∈ idxs, i < count) → s.markers.length = count →
      satisfyAll fuel graph count names source actions idxs s = some (.ok s') →
      marksInv graph count s s' ∧ ∀ i ∈ idxs, (markersGet s'.markers i).1 = true := by
  intro idxs
  induction idxs with
  | nil =>
    intro s s' _ _ h
    unfold satisfyAll at h
    simp at h
    subst h
    exact ⟨marksInv_refl graph count s, fun i hi => absurd hi (by simp)⟩
  | cons idx rest ih =>
    intro s s' hbound hlen h
    unfold satisfyAll at h
    cases h1 : satisfyDependencies fuel graph count idx names source actions s with
    | none => rw [h1] at h; exact absurd h (by simp)
    | some r =>
      rw [h1] at h
      cases r with
      | error e => exact absurd h (by simp)
      | ok s1 =>
        obtain ⟨inv1, hv1⟩ := satisfy_keeps graph count names source actions fuel idx s s1
          (hbound idx (by simp)) hlen h1
        have hlen1 : s1.markers.length = count := inv1.1.trans hlen
        obtain ⟨inv2, hv2⟩ := ih s1 s' (fun i hi => hbound i (by simp [hi])) hlen1 h
        refine ⟨marksInv_trans graph count inv1 inv2, ?_⟩
        intro i hi
        rcases List.mem_cons.mp hi with he | ht
        · subst he
          exact inv2.2.1 i hv1
        · exact hv2 i ht

theorem goodOrder_init (graph : Nat → Nat → Bool) (count : Nat) :
    goodOrder graph count (List.replicate count (false, false)) [] := by
  refine ⟨List.nodup_nil, ?_, ?_⟩
  · intro i
    simp [markersGet_replicate]
  · intro k i hk
    simp at hk

theorem indexOf_lt_of_mem_take {b : Nat} :
    ∀ (l : List Nat) (k : Nat), b ∈ l.take k → l.indexOf b < k := by
  intro l
  induction l with
  | nil =>
    intro k hb
    simp at hb
  | cons x t ih =>
    intro k hb
    cases k with
    | zero => simp at hb
    | succ m =>
      rw [List.take_succ_cons] at hb
      by_cases hbx : b = x
      · subst hbx
        simp [List.indexOf_cons_self]
      · rcases List.mem_cons.mp hb with he | ht
        · exact absurd he hbx
        · have := ih m ht
          rw [List.indexOf_cons_ne _ (Ne.symm hbx)]
          omega

theorem goodOrder_rank {graph : Nat → Nat → Bool} {count : Nat} {m : List (Bool × Bool)}
    {order : List Nat} (hg : goodOrder graph count m order)
    (hall : ∀ i, i < count → (markersGet m i).1 = true) (a b : Nat)
    (ha : a < count) (hb : b < count) (hab : graph a b = true) :
    order.indexOf b < order.indexOf a := by
  have hamem : a ∈ order := (hg.2.1 a).mp (hall a ha)
  have hk : order[order.indexOf a]? = some a := by
    rw [List.getElem?_eq_getElem (List.indexOf_lt_length.mpr hamem)]
    rw [List.getElem_indexOf (List.indexOf_lt_length.mpr hamem)]
  have hbmem := hg.2.2 (order.indexOf a) a hk b hb hab
  exact indexOf_lt_of_mem_take order _ hbmem

theorem no_cycle_of_goodOrder {graph : Nat → Nat → Bool} {count : Nat}
    {m : List (Bool × Bool)} {order : List Nat} (hg : goodOrder graph count m order)
    (hall : ∀ i, i < count → (markersGet m i).1 = true) (i : Nat) :
    ¬ Relation.TransGen (fun a b => a < count ∧ b < count ∧ graph a b = true) i i := by
  intro hcyc
  have hdesc : ∀ x y, Relation.TransGen
      (fun a b => a < count ∧ b < count ∧ graph a b = true) x y →
      order.indexOf y < order.indexOf x := by
    intro x y hxy
    induction hxy with
    | single h => exact goodOrder_rank hg hall _ _ h.1 h.2.1 h.2.2
    | tail _ h2 ih => exact lt_trans (goodOrder_rank hg hall _ _ h2.1 h2.2.1 h2.2.2) ih
  exact absurd (hdesc i i hcyc) (lt_irrefl _)

theorem countP_update (p q : Nat → Bool) (a : Nat) :
    ∀ (l : List Nat), l.Nodup → a ∈ l → p a = true → q a = false →
      (∀ b ∈ l, b ≠ a → q b = p b) → l.countP q + 1 = l.countP p := by
  intro l
  induction l with
  | nil =>
    intro _ ha
    exact absurd ha (by simp)
  | cons x t ih =>
    intro hnd ha hpa hqa hagree
    rcases List.mem_cons.mp ha with hax | hat
    · subst hax
      have hnt : a ∉ t := (List.nodup_cons.mp hnd).1
      have heq : t.countP q = t.countP p := by
        apply List.countP_congr
        intro b hb
        have hbne : b ≠ a := fun he => hnt (he ▸ hb)
        rw [hagree b (List.mem_cons_of_mem _ hb) hbne]
      rw [List.countP_cons, List.countP_cons, hpa, hqa, heq]
      simp
    · have hxa : x ≠ a := by
        intro he
        subst he
        exact (List.nodup_cons.mp hnd).1 hat
      have hq : q x = p x := hagree x (List.mem_cons_self x t) hxa
      have := ih (List.nodup_cons.mp hnd).2 hat hpa hqa
        (fun b hb hbne => hagree b (List.mem_cons_of_mem _ hb) hbne)
      rw [List.countP_cons, List.countP_cons, hq]
      omega

/-- The fuel measure: how many indices below `count` are not marked visiting.
Each level of the Go recursion marks one more index `visiting`, so the
recursion depth never exceeds this count. -/
def unvisitingCount {α : Type} (count : Nat) (s : DepSt α) : Nat :=
  (List.range count).countP (fun i => !(markersGet s.markers i).2)

theorem unvisitingCount_congr {α : Type} (count : Nat) (s t : DepSt α)
    (h : ∀ i, (markersGet t.markers i).2 = (markersGet s.markers i).2) :
    unvisitingCount count t = unvisitingCount count s :=
  List.countP_congr (fun i _ => by rw [h i])

theorem unvisitingCount_set {α : Type} (count index : Nat) (s : DepSt α)
    (hidx : index < count) (hlen : s.markers.length = count)
    (hv : (markersGet s.markers index).2 = false) :
    unvisitingCount count { s with markers := s.markers.set index (false, true) } + 1 =
      unvisitingCount count s := by
  apply countP_update _ _ index (List.range count) (List.nodup_range count)
    (List.mem_range.mpr hidx)
  · simp [hv]
  · have : markersGet (s.markers.set index (false, true)) index = (false, true) :=
      markersGet_set_self _ _ _ (by omega)
    simp [this]
  · intro b _ hbne
    simp [markersGet_set_ne _ index b _ hbne]

theorem unvisitingCount_init {α : Type} (count : Nat) (s : DepSt α)
    (h : s.markers = List.replicate count (false, false)) :
    unvisitingCount count s = count := by
  unfold unvisitingCount
  have h1 : (List.range count).countP (fun i => !(markersGet s.markers i).2) =
      (List.range count).countP (fun _ => true) := by
    apply List.countP_congr
    intro x _
    simp [h, markersGet_replicate]
  rw [h1, congrFun List.countP_true, List.length_range]

theorem depLoop_nonone {α : Type} (graph : Nat → Nat → Bool) (count B : Nat)
    (sat : Nat → DepSt α → Option (Except FsmError (DepSt α))) (index : Nat)
    (hok : ∀ j (t t' : DepSt α), j < count → t.markers.length = count →
      sat j t = some (.ok t') →
      t'.markers.length = t.markers.length ∧
      (∀ i, (markersGet t'.markers i).2 = (markersGet t.markers i).2))
    (hnn : ∀ j (t : DepSt α), j < count → t.markers.length = count →
      unvisitingCount count t ≤ B → sat j t ≠ none) :
    ∀ (rem onIdx : Nat) (s : DepSt α), onIdx + rem ≤ count → s.markers.length = count →
      unvisitingCount count s ≤ B →
      depLoop sat graph index rem onIdx s ≠ none := by
  intro rem
  induction rem with
  | zero =>
    intro onIdx s _ _ _
    unfold depLoop
    simp
  | succ m ih =>
    intro onIdx s hle hlen hmeas
    unfold depLoop
    by_cases hg : graph index onIdx = true
    · rw [if_pos hg]
      cases hone : sat onIdx s with
      | none => exact absurd hone (hnn onIdx s (by omega) hlen hmeas)
      | some r =>
        cases r with
        | error e => simp
        | ok s1 =>
          obtain ⟨hl1, hv1⟩ := hok onIdx s s1 (by omega) hlen hone
          exact ih (onIdx + 1) s1 (by omega) (hl1.trans hlen)
            (by rw [unvisitingCount_congr count s s1 hv1]; exact hmeas)
    · rw [if_neg hg]
      exact ih (onIdx + 1) s (by omega) hlen hmeas

theorem satisfy_nonone {α : Type} [BEq α] (graph : Nat → Nat → Bool) (count : Nat)
    (names : List String) (source : List (String × JsonState α))
    (actions : List (String × ActionFn α)) :
    ∀ (fuel index : Nat) (s : DepSt α), index < count → s.markers.length = count →
      unvisitingCount count s < fuel →
      satisfyDependencies fuel graph count index names source actions s ≠ none := by
  intro fuel
  induction fuel with
  | zero =>
    intro index s _ _ hm
    exact absurd hm (by omega)
  | succ f ih =>
    intro index s hidx hlen hmeas
    unfold satisfyDependencies
    by_cases hv2 : (markersGet s.markers index).2 = true
    · rw [if_pos hv2]
      simp
    · rw [if_neg hv2]
      by_cases hv1 : (markersGet s.markers index).1 = true
      · rw [if_pos hv1]
        simp
      · rw [if_neg hv1]
        have hv2f : (markersGet s.markers index).2 = false := by simpa using hv2
        have hset : unvisitingCount count
            { s with markers := s.markers.set index (false, true) } + 1 =
            unvisitingCount count s :=
          unvisitingCount_set count index s hidx hlen hv2f
        have hlen1 : ({ s with markers := s.markers.set index (false, true) } :
            DepSt α).markers.length = count := by
          simpa using hlen
        have hdep := depLoop_nonone graph count
          (unvisitingCount count { s with markers := s.markers.set index (false, true) })
          (fun onIdx s' => satisfyDependencies f graph count onIdx names source actions s')
          index
          (fun j t t' hj hl ht =>
            ⟨(satisfy_keeps graph count names source actions f j t t' hj hl ht).1.1,
             (satisfy_keeps graph count names source actions f j t t' hj hl ht).1.2.2.1⟩)
          (fun j t hj hl hm => ih j t hj hl (by omega))
          count 0 _ (by omega) hlen1 (le_refl _)
        cases hd : depLoop (fun onIdx s' =>
            satisfyDependencies f graph count onIdx names source actions s')
            graph index count 0
            { s with markers := s.markers.set index (false, true) } with
        | none => exact absurd hd hdep
        | some r =>
          cases r with
          | error e => simp
          | ok s2 =>
            show (match materialize index names source actions s2 with
              | Except.error e => some (Except.error e)
              | Except.ok s3 => some (Except.ok (markDone index s3))) ≠ none
            cases materialize index names source actions s2 with
            | error e => simp
            | ok s3 => simp

theorem satisfyAll_nonone {α : Type} [BEq α] (graph : Nat → Nat → Bool) (count fuel : Nat)
    (names : List String) (source : List (String × JsonState α))
    (actions : List (String × ActionFn α)) :
    ∀ (idxs : List Nat) (s : DepSt α), (∀ i ∈ idxs, i < count) →
      s.markers.length = count → unvisitingCount count s < fuel →
      satisfyAll fuel graph count names source actions idxs s ≠ none := by
  intro idxs
  induction idxs with
  | nil =>
    intro s _ _ _
    unfold satisfyAll
    simp
  | cons idx rest ih =>
    intro s hb hlen hm
    unfold satisfyAll
    cases h1 : satisfyDependencies fuel graph count idx names source actions s with
    | none =>
      exact absurd h1
        (satisfy_nonone graph count names source actions fuel idx s (hb idx (by simp))
          hlen hm)
    | some r =>
      cases r with
      | error e => simp
      | ok s1 =>
        obtain ⟨inv1, -⟩ := satisfy_keeps graph count names source actions fuel idx s s1
          (hb idx (by simp)) hlen h1
        exact ih s1 (fun i hi => hb i (by simp [hi])) (inv1.1.trans hlen)
          (by rw [unvisitingCount_congr count s s1 inv1.2.2.1]; exact hm)

theorem buildCycle_fails {α : Type} [BEq α] (states : List (String × JsonState α))
    (actions : List (String × ActionFn α)) (i : Nat)
    (hcyc : Relation.TransGen (fun a b => a < states.length ∧ b < states.length ∧
      buildGraph states (states.map Prod.fst) a b = true) i i) :
    ∃ e, buildStateHierarchy states actions = some (.error e) := by
  unfold buildStateHierarchy
  cases hall : satisfyAll (states.length + 1) (buildGraph states (states.map Prod.fst))
      states.length (states.map Prod.fst) states actions (List.range states.length)
      { markers := List.replicate states.length (false, false), start := none, dest := [],
        heap := BHeap.empty } with
  | none =>
    exfalso
    refine satisfyAll_nonone (buildGraph states (states.map Prod.fst)) states.length
      (states.length + 1) (states.map Prod.fst) states actions (List.range states.length) _
      (fun j hj => List.mem_range.mp hj) (by simp) ?_ hall
    have hinit := unvisitingCount_init states.length
      ({ markers := List.replicate states.length (false, false), start := none, dest := [],
         heap := BHeap.empty } : DepSt α) rfl
    rw [hinit]
    omega
  | some r =>
    cases r with
    | error e => exact ⟨e, rfl⟩
    | ok sF =>
      exfalso
      obtain ⟨invF, hvF⟩ := satisfyAll_keeps (buildGraph states (states.map Prod.fst))
        states.length (states.length + 1) (states.map Prod.fst) states actions
        (List.range states.length) _ sF (fun j hj => List.mem_range.mp hj) (by simp) hall
      obtain ⟨order, horder, -⟩ :=
        invF.2.2.2.2 [] (goodOrder_init (buildGraph states (states.map Prod.fst))
          states.length)
      have hall2 : ∀ j, j < states.length → (markersGet sF.markers j).1 = true :=
        fun j hj => hvF j (List.mem_range.mpr hj)
      exact no_cycle_of_goodOrder horder hall2 i hcyc

theorem satisfy_visiting {α : Type} [BEq α] (fuel : Nat) (graph : Nat → Nat → Bool)
    (count index : Nat) (names : List String) (source : List (String × JsonState α))
    (actions : List (String × ActionFn α)) (s : DepSt α)
    (h : (markersGet s.markers index).2 = true) :
    satisfyDependencies (fuel + 1) graph count index names source actions s =
      some (.error (newFsmErrorLoading "State hierarchy is cycled")) := by
  unfold satisfyDependencies
  rw [if_pos h]

theorem satisfy_visited {α : Type} [BEq α] (fuel : Nat) (graph : Nat → Nat → Bool)
    (count index : Nat) (names : List String) (source : List (String × JsonState α))
    (actions : List (String × ActionFn α)) (s : DepSt α)
    (h2 : (markersGet s.markers index).2 = false)
    (h1 : (markersGet s.markers index).1 = true) :
    satisfyDependencies (fuel + 1) graph count index names source actions s =
      some (.ok s) := by
  unfold satisfyDependencies
  rw [if_neg (by simp [h2]), if_pos h1]

def exCycleStates : List (String × JsonState Nat) :=
  [("0", { Start := false, StartSubState := "", Parent := "1", Transitions := [] }),
   ("1", { Start := false, StartSubState := "", Parent := "2", Transitions := [] }),
   ("2", { Start := false, StartSubState := "", Parent := "3", Transitions := [] }),
   ("3", { Start := false, StartSubState := "", Parent := "0", Transitions := [] })]

/-- Concrete marker states exercising the visiting / visited short-circuits
of `satisfyDependencies`. -/
def exDepVisiting : DepSt Nat :=
  { markers := [(false, true)], start := none, dest := [], heap := BHeap.empty }

def exDepVisited : DepSt Nat :=
  { markers := [(true, false)], start := none, dest := [], heap := BHeap.empty }

/-- C4: the Builder detects dependency cycles.  (a) Re-encountering a state
marked `visiting` aborts `satisfyDependencies` with the "State hierarchy is
cycled" load error.  (b) A state marked `visited` is skipped: the call
returns the dependency state unchanged, re-materializing nothing.  (c) For
every set of state declarations whose parent / start-substate dependency
graph `buildGraph` has a cycle among the declared indices,
`buildStateHierarchy` fails with an error, so no machine is ever produced
from it.  (d) The concrete declarations "0"→"1"→"2"→"3"→"0" (a parent
cycle) fail with exactly the cycled load error. -/
theorem claim_C4 {α : Type} [BEq α] (graph : Nat → Nat → Bool) (count fuel index : Nat)
    (names : List String) (source : List (String × JsonState α))
    (actions : List (String × ActionFn α)) (s : DepSt α) :
    ((markersGet s.markers index).2 = true →
      satisfyDependencies (fuel + 1) graph count index names source actions s =
        some (.error (newFsmErrorLoading "State hierarchy is cycled")))
    ∧ ((markersGet s.markers index).2 = false → (markersGet s.markers index).1 = true →
      satisfyDependencies (fuel + 1) graph count index names source actions s =
        some (.ok s))
    ∧ (∀ (states : List (String × JsonState α)) (acts : List (String × ActionFn α))
        (i : Nat),
      Relation.TransGen
        (fun a b => a < states.length ∧ b < states.length ∧
          buildGraph states (states.map Prod.fst) a b = true) i i →
      ∃ e, buildStateHierarchy states acts = some (.error e))
    ∧ buildStateHierarchy exCycleStates ([] : List (String × ActionFn Nat)) =
      some (.error (newFsmErrorLoading "State hierarchy is cycled")) := by
  refine ⟨?_, ?_, ?_, ?_⟩
  · intro h
    exact satisfy_visiting fuel graph count index names source actions s h
  · intro h2 h1
    exact satisfy_visited fuel graph count index names source actions s h2 h1
  · intro states acts i hcyc
    exact buildCycle_fails states acts i hcyc
  · rfl

/-- Witness for C4: the one-state visiting marker yields the cycled load
error; the one-state visited marker is skipped unchanged; the concrete
four-cycle declarations fail the build with the cycled load error. -/
theorem claim_C4_witness :
    satisfyDependencies 1 (fun _ _ => false) 1 0 [] [] [] exDepVisiting =
      some (.error (newFsmErrorLoading "State hierarchy is cycled"))
    ∧ satisfyDependencies 1 (fun _ _ => false) 1 0 [] [] [] exDepVisited =
      some (.ok exDepVisited)
    ∧ (∃ e, buildStateHierarchy exCycleStates ([] : List (String × ActionFn Nat)) =
        some (.error e))
    ∧ buildStateHierarchy exCycleStates ([] : List (String × ActionFn Nat)) =
      some (.error (newFsmErrorLoading "State hierarchy is cycled")) := by
  obtain ⟨ha, -, hc, hd⟩ :=
    claim_C4 (fun _ _ => false) 1 0 0 [] [] ([] : List (String × ActionFn Nat)) exDepVisiting
  obtain ⟨-, hb, -, -⟩ :=
    claim_C4 (fun _ _ => false) 1 0 0 [] [] ([] : List (String × ActionFn Nat)) exDepVisited
  refine ⟨ha rfl, hb rfl rfl, hc exCycleStates [] 0 ?_, hd⟩
  have h01 : Relation.TransGen
      (fun a b => a < exCycleStates.length ∧ b < exCycleStates.length ∧
        buildGraph exCycleStates (exCycleStates.map Prod.fst) a b = true) 0 1 :=
    .single ⟨by decide, by decide, by decide⟩
  have h02 : Relation.TransGen
      (fun a b => a < exCycleStates.length ∧ b < exCycleStates.length ∧
        buildGraph exCycleStates (exCycleStates.map Prod.fst) a b = true) 0 2 :=
    .tail h01 ⟨by decide, by decide, by decide⟩
  have h03 : Relation.TransGen
      (fun a b => a < exCycleStates.length ∧ b < exCycleStates.length ∧
        buildGraph exCycleStates (exCycleStates.map Prod.fst) a b = true) 0 3 :=
    .tail h02 ⟨by decide, by decide, by decide⟩
  exact .tail h03 ⟨by decide, by decide, by decide⟩

end SimpleFsm
